import Mathlib

/-!
# Verification of the bus-schedule-service GTFS core

Shallow embedding of the feed-parsing / caching / departure-computation
engine of the repository (gtfs-utils module, kv-cache module, and the
request handlers of index.js), together with proofs about the claims of
the specification.

Modelling conventions:
* JavaScript strings are Lean `String`s; the string operations the code
  uses (`split` on a single-character separator, `trim`, `parseInt`,
  `toLowerCase`, `includes`) are defined here structurally over the
  character list so that the kernel can evaluate them.
* Instants (`Date` values) are integers counting milliseconds since the
  epoch, in a fixed-offset (DST-free) local calendar with days of
  86,400,000 ms — the calendar arithmetic `setHours`/`setDate` perform
  when the host runs a fixed offset such as UTC. An *invalid* date (time
  value `NaN`) is `none : Option Int`.
* A parsed CSV row (a JS object built by assigning `row[header] = value`
  in header order) is the list of those assignments; property access is
  `rowGet`, which returns the last assignment to the key (JS overwrite
  semantics) or `none` for an absent property (`undefined`).
-/

namespace BusSched

/-- JS whitespace for `trim` / `parseInt` (ASCII + Unicode space classes,
modelled by `Char.isWhitespace`). -/
def jsWs (c : Char) : Bool := c.isWhitespace

/-- `String.prototype.split` with a one-character separator, on the
character list: every occurrence of the separator starts a new chunk.
Always returns at least one chunk, like JS `split`. -/
def splitChar (sep : Char) : List Char → List (List Char)
  | [] => [[]]
  | c :: rest =>
    match splitChar sep rest with
    | [] => [[c]]
    | h :: t => if c = sep then [] :: h :: t else (c :: h) :: t

/-- `text.split(sep)` for a one-character separator. -/
def jsSplit (s : String) (sep : Char) : List String :=
  (splitChar sep s.data).map List.asString

/-- Drop the longest suffix whose characters all satisfy `p`
(the right half of `trim`), defined structurally. -/
def dropLastWhile (p : Char → Bool) : List Char → List Char
  | [] => []
  | c :: rest =>
    match dropLastWhile p rest with
    | [] => if p c then [] else [c]
    | r => c :: r

/-- `trim` on the character list: strip leading and trailing whitespace. -/
def jsTrimList (l : List Char) : List Char :=
  (dropLastWhile jsWs l).dropWhile jsWs

/-- `s.trim()`. -/
def jsTrim (s : String) : String := (jsTrimList s.data).asString

/-- Numeric value of one decimal digit character, `none` otherwise. -/
def digitVal (c : Char) : Option Nat :=
  if '0' ≤ c ∧ c ≤ '9' then some (c.toNat - '0'.toNat) else none

/-- Numeric value of one hexadecimal digit character, `none` otherwise. -/
def hexVal (c : Char) : Option Nat :=
  if '0' ≤ c ∧ c ≤ '9' then some (c.toNat - '0'.toNat)
  else if 'a' ≤ c ∧ c ≤ 'f' then some (c.toNat - 'a'.toNat + 10)
  else if 'A' ≤ c ∧ c ≤ 'F' then some (c.toNat - 'A'.toNat + 10)
  else none

/-- Longest prefix of digits, folded into a number with `none` when the
prefix is empty (the "NaN" case of `parseInt`). -/
def takeDigits (dv : Char → Option Nat) (base : Nat) : List Char → Option Nat → Option Nat
  | [], acc => acc
  | c :: rest, acc =>
    match dv c with
    | some d => takeDigits dv base rest (some ((acc.getD 0) * base + d))
    | none => acc

/-- The optional sign at the front of a `parseInt` argument. -/
def jsSign (l : List Char) : Int × List Char :=
  match l with
  | c :: rest => if c = '-' then (-1, rest) else if c = '+' then (1, rest) else (1, l)
  | [] => (1, l)

/-- Does the (post-sign) text start with the `0x`/`0X` hexadecimal marker? -/
def isHexPrefix (l : List Char) : Bool :=
  match l with
  | a :: b :: _ => a = '0' && (b = 'x' || b = 'X')
  | _ => false

/-- After the sign: autodetect a `0x`/`0X` prefix as hexadecimal, else
take the longest decimal-digit prefix; `none` is `NaN`. -/
def jsDigitsPart (sign : Int) (l : List Char) : Option Int :=
  if isHexPrefix l then (takeDigits hexVal 16 (l.drop 2) none).map fun n => sign * n
  else (takeDigits digitVal 10 l none).map fun n => sign * n

/-- `parseInt(s)` with no radix argument: skip leading whitespace, read an
optional sign, then the digit prefix; `none` is `NaN`.  (The float
rounding `parseInt` applies to huge results is idealised away: values are
exact integers.) -/
def jsParseInt (s : String) : Option Int :=
  let sl := jsSign (s.data.dropWhile jsWs)
  jsDigitsPart sl.1 sl.2

/-- A parsed CSV row: the assignments `row[header] = value` in header
order.  Duplicate headers keep both entries; `rowGet` applies the JS
overwrite semantics. -/
abbrev Row := List (String × String)

/-- Property access `row[k]`: the last assignment to `k`, or `none`
(`undefined`) when the row has no such column. -/
def rowGet (r : Row) (k : String) : Option String :=
  ((r.filter fun p => p.1 == k).getLast?).map Prod.snd

/-- `headers.forEach((header, index) => row[header] = values[index] || '')`:
positional match, missing (or empty) trailing values become `""`. -/
def mkRow : List String → List String → Row
  | [], _ => []
  | h :: hs, vs => (h, vs.headD "") :: mkRow hs vs.tail

/-- `parseCSV(text)` of gtfs-utils: split into lines, drop blank lines
everywhere (`filter(line => line.trim())`), first remaining line is the
header, every later line a row. -/
def parseCSV (text : String) : List Row :=
  let lines := (jsSplit text '\n').filter fun l => jsTrim l ≠ ""
  match lines with
  | [] => []
  | l0 :: rest =>
    let headers := (jsSplit l0 ',').map jsTrim
    rest.map fun line => mkRow headers ((jsSplit line ',').map jsTrim)

/-- `parseCSVFiltered(text, filterFn)` of gtfs-utils: the header is the
*first* line of the split (blank or not); each later non-blank line is
trimmed, parsed positionally and kept only when the predicate accepts it. -/
def parseCSVFiltered (text : String) (filterFn : Row → Bool) : List Row :=
  let lines := jsSplit text '\n'
  match lines with
  | [] => []
  | l0 :: rest =>
    let headers := (jsSplit l0 ',').map jsTrim
    rest.filterMap fun rawLine =>
      let line := jsTrim rawLine
      if line = "" then none
      else
        let row := mkRow headers ((jsSplit line ',').map jsTrim)
        if filterFn row then some row else none

/-! ## GTFS time resolution (`parseGTFSTime`) -/

/-- Milliseconds per calendar day in the fixed-offset model. -/
def msPerDay : Int := 86400000

/-- Local midnight of the day containing instant `t` (what `setHours`
takes as the day component of the date). -/
def dayStart (t : Int) : Int := t - t % msPerDay

/-- `parseGTFSTime(timeStr, baseDate)`: split on `':'`, `parseInt` the
first three chunks (a missing chunk is `undefined`, whose `parseInt` is
`NaN`), take `extraDays = Math.floor(hours / 24)` (floor division) and
`hours % 24` (JS truncated remainder), build the instant at `baseDate`'s
day via `setHours(hours, minutes, seconds, 0)` (values roll over
arithmetically), and add `extraDays` days when positive.  A `NaN` in any
component makes the date invalid: `none`.  The function never throws on a
string argument. -/
def parseGTFSTime (timeStr : String) (baseDate : Int) : Option Int :=
  let parts := jsSplit timeStr ':'
  match (parts.get? 0).bind jsParseInt, (parts.get? 1).bind jsParseInt,
      (parts.get? 2).bind jsParseInt with
  | some hours, some minutes, some seconds =>
    let extraDays := Int.fdiv hours 24
    let hours' := Int.tmod hours 24
    let date := dayStart baseDate + ((hours' * 60 + minutes) * 60 + seconds) * 1000
    some (if extraDays > 0 then date + extraDays * msPerDay else date)
  | _, _, _ => none

/-! ## The departure resolver (`getUpcomingDepartures`) -/

/-- Stable insertion of `x` *after* every element `y` of the sorted prefix
with `le y x` (the JS stable-sort rule: an earlier element stays earlier
when the comparator is `≤ 0`). -/
def insSorted (le : α → α → Bool) (x : α) : List α → List α
  | [] => [x]
  | y :: ys => if le y x then y :: insSorted le x ys else x :: y :: ys

/-- Stable sort (insertion sort) matching `Array.prototype.sort` with a
consistent comparator: for an inconsistent comparator (the `NaN` cases the
engine maps to `0`) the engine's order is implementation-defined, and this
model fixes the stable insertion order. -/
def stableSort (le : α → α → Bool) (l : List α) : List α :=
  l.foldl (fun acc x => insSorted le x acc) []

/-- The comparator `(a, b) => a[0] - b[0]` on `[departureTime, row]`
pairs, as the "stays before" relation: a `NaN` difference (an invalid
date on either side) is treated as `0` by the sort. -/
def depLe (a b : Option Int × Row) : Bool :=
  match a.1, b.1 with
  | some x, some y => x ≤ y
  | _, _ => true

/-- Trip ids of the trips whose `route_id` equals `routeId`
(`trips.filter(t => t.route_id === routeId).map(t => t.trip_id)`; a trip
row without a `trip_id` column contributes `undefined`, kept as `none`). -/
def tripIdsForRoute (routeId : String) (trips : List Row) : List (Option String) :=
  (trips.filter fun t => rowGet t "route_id" == some routeId).map
    fun t => rowGet t "trip_id"

/-- The filter `(row) => tripIdsForRoute.has(row.trip_id) && row.stop_id
=== stopId` passed to the filtered parse of stop_times.txt. -/
def stopTimesPred (tripIds : List (Option String)) (stopId : String) (row : Row) : Bool :=
  tripIds.contains (rowGet row "trip_id") && rowGet row "stop_id" == some stopId

/-- The body of the per-row loop of `getUpcomingDepartures`: a row with no
`departure_time` property makes `parseGTFSTime` throw (`undefined.split`)
and the `catch` skips the row; otherwise `parseGTFSTime` returns a date
(possibly invalid — it does *not* throw on a malformed string), the
comparison `departureTime < afterTime` (false for an invalid date) may add
one day, and the pair is pushed. -/
def upcomingOfRow (afterTime : Int) (st : Row) : Option (Option Int × Row) :=
  match rowGet st "departure_time" with
  | none => none
  | some dtStr =>
    let d := parseGTFSTime dtStr afterTime
    let d' := match d with
      | some v => if v < afterTime then some (v + msPerDay) else some v
      | none => none
    some (d', st)

/-- `getUpcomingDepartures(routeId, stopId, afterTime, zipData)`, as a
function of the texts of `trips.txt` and `stop_times.txt` (which the
source reads from the snapshot via `parseCSVFromZip` /
`parseCSVFromZipFiltered`): join trips-for-route with
stop-times-for-stop, resolve each departure instant, and sort by the
`a[0] - b[0]` comparator. -/
def getUpcomingDepartures (routeId stopId : String) (afterTime : Int)
    (tripsText stopTimesText : String) : List (Option Int × Row) :=
  let trips := parseCSV tripsText
  let tripIds := tripIdsForRoute routeId trips
  if tripIds.isEmpty then []
  else
    let relevant := parseCSVFiltered stopTimesText (stopTimesPred tripIds stopId)
    let upcoming := relevant.filterMap (upcomingOfRow afterTime)
    stableSort depLe upcoming

/-! ## Well-formed schedule times -/

/-- A non-empty all-decimal-digit chunk. -/
def isDigits (s : String) : Bool :=
  !s.data.isEmpty && s.data.all fun c => decide ('0' ≤ c ∧ c ≤ '9')

/-- A well-formed GTFS `HH:MM:SS` string: exactly three colon-separated
non-empty digit chunks (hours may exceed 24). -/
def wellFormedGTFSTime (s : String) : Bool :=
  match jsSplit s ':' with
  | [h, m, sec] => isDigits h && isDigits m && isDigits sec
  | _ => false

theorem digit_not_ws {c : Char} (h0 : '0' ≤ c) (h9 : c ≤ '9') : jsWs c = false := by
  have hne : c ≠ ' ' ∧ c ≠ '\t' ∧ c ≠ '\r' ∧ c ≠ '\n' := by
    refine ⟨?_, ?_, ?_, ?_⟩ <;> rintro rfl <;> revert h0 <;> decide
  simp [jsWs, Char.isWhitespace, hne.1, hne.2.1, hne.2.2.1, hne.2.2.2]

theorem digitVal_isSome {c : Char} (h0 : '0' ≤ c) (h9 : c ≤ '9') :
    (digitVal c).isSome := by
  simp [digitVal, h0, h9]

theorem takeDigits_some (l : List Char) (a : Nat) :
    ∃ n : Nat, takeDigits digitVal 10 l (some a) = some n := by
  induction l generalizing a with
  | nil => exact ⟨a, rfl⟩
  | cons c rest ih =>
    simp only [takeDigits]
    cases hdv : digitVal c with
    | none => exact ⟨a, rfl⟩
    | some d => exact ih _

/-- `parseInt` on a non-empty all-digit chunk returns a (non-negative)
natural number. -/
theorem jsParseInt_digits {s : String} (hs : isDigits s) :
    ∃ n : Nat, jsParseInt s = some (n : Int) := by
  simp only [isDigits, Bool.and_eq_true, List.all_eq_true, Bool.not_eq_true',
    List.isEmpty_eq_false_iff_exists_mem] at hs
  obtain ⟨⟨c0, hc0⟩, hall⟩ := hs
  have hdig : ∀ x ∈ s.data, '0' ≤ x ∧ x ≤ '9' := fun x hx =>
    of_decide_eq_true (hall x hx)
  rcases hl : s.data with _ | ⟨c, rest⟩
  · rw [hl] at hc0; cases hc0
  rw [hl] at hdig
  obtain ⟨h0, h9⟩ := hdig c (.head _)
  have hnws : jsWs c = false := digit_not_ws h0 h9
  have hdrop : (c :: rest).dropWhile jsWs = c :: rest :=
    List.dropWhile_cons_of_neg (by simp [hnws])
  have hstart : ∃ n : Nat, takeDigits digitVal 10 (c :: rest) none = some n := by
    obtain ⟨d, hd⟩ := Option.isSome_iff_exists.mp (digitVal_isSome h0 h9)
    simp only [takeDigits, hd, Option.getD_none]
    exact takeDigits_some rest _
  have hcm : c ≠ '-' := by rintro rfl; revert h0; decide
  have hcp : c ≠ '+' := by rintro rfl; revert h0; decide
  have hsign : jsSign (c :: rest) = (1, c :: rest) := by
    simp [jsSign, hcm, hcp]
  have hhex : isHexPrefix (c :: rest) = false := by
    cases rest with
    | nil => rfl
    | cons c1 r1 =>
      obtain ⟨h10, h19⟩ := hdig c1 (List.mem_cons_of_mem _ (List.mem_cons_self _ _))
      have hx : c1 ≠ 'x' := by rintro rfl; revert h19; decide
      have hX : c1 ≠ 'X' := by rintro rfl; revert h19; decide
      simp [isHexPrefix, hx, hX]
  obtain ⟨n, hn⟩ := hstart
  refine ⟨n, ?_⟩
  simp [jsParseInt, hl, hdrop, hsign, jsDigitsPart, hhex, hn]

/-- A well-formed time string resolves to an instant no earlier than the
local midnight of the base date's day. -/
theorem parseGTFSTime_wellFormed {s : String} (t : Int)
    (hwf : wellFormedGTFSTime s) :
    ∃ v, parseGTFSTime s t = some v ∧ dayStart t ≤ v := by
  unfold wellFormedGTFSTime at hwf
  split at hwf
  case h_2 => cases hwf
  case h_1 hs ms ss heq =>
    simp only [Bool.and_eq_true] at hwf
    obtain ⟨⟨hdh, hdm⟩, hds⟩ := hwf
    obtain ⟨h, hh⟩ := jsParseInt_digits hdh
    obtain ⟨m, hm⟩ := jsParseInt_digits hdm
    obtain ⟨sec, hsec⟩ := jsParseInt_digits hds
    refine ⟨if Int.fdiv (h : Int) 24 > 0 then
        dayStart t + ((Int.tmod (h : Int) 24 * 60 + (m : Int)) * 60
          + (sec : Int)) * 1000 + Int.fdiv (h : Int) 24 * msPerDay
      else
        dayStart t + ((Int.tmod (h : Int) 24 * 60 + (m : Int)) * 60
          + (sec : Int)) * 1000, ?_, ?_⟩
    · simp only [parseGTFSTime, heq, List.get?, Option.some_bind, hh, hm, hsec]
    · have hmod : (0 : Int) ≤ Int.tmod (h : Int) 24 :=
        Int.tmod_nonneg _ (Int.ofNat_nonneg h)
      have hinner : (0 : Int) ≤ ((Int.tmod (h : Int) 24 * 60 + (m : Int)) * 60
          + (sec : Int)) * 1000 := by positivity
      split
      · next hgt =>
        have : (0 : Int) ≤ Int.fdiv (h : Int) 24 * msPerDay :=
          mul_nonneg (le_of_lt hgt) (by norm_num [msPerDay])
        linarith
      · linarith

/-- C2 (confirmed): `parseGTFSTime` on a well-formed `HH:MM:SS` string
with hours `h`, minutes `m`, seconds `sec` (all naturals) and base date
`D` returns the instant at `D`'s day advanced by `⌊h / 24⌋` calendar days
with wall-clock time `(h mod 24):m:sec`. -/
theorem parseGTFSTime_resolves (s : String) (D : Int) (hs ms ss : String)
    (rest : List String) (h m sec : Nat)
    (hsplit : jsSplit s ':' = hs :: ms :: ss :: rest)
    (hh : jsParseInt hs = some (h : Int)) (hm : jsParseInt ms = some (m : Int))
    (hsec : jsParseInt ss = some (sec : Int)) :
    parseGTFSTime s D =
      some (dayStart D + (h : Int) / 24 * msPerDay
        + (((h : Int) % 24 * 60 + (m : Int)) * 60 + (sec : Int)) * 1000) := by
  have h24 : (0 : Int) ≤ 24 := by norm_num
  have hfd : Int.fdiv (h : Int) 24 = (h : Int) / 24 := Int.fdiv_eq_ediv _ h24
  have htm : Int.tmod (h : Int) 24 = (h : Int) % 24 :=
    Int.tmod_eq_emod (Int.ofNat_nonneg h) h24
  simp only [parseGTFSTime, hsplit, List.get?, Option.some_bind, hh, hm, hsec,
    hfd, htm]
  split
  · next hgt => ring_nf
  · next hle =>
    have hnn : (0 : Int) ≤ (h : Int) / 24 :=
      Int.ediv_nonneg (Int.ofNat_nonneg h) h24
    have hz : (h : Int) / 24 = 0 := le_antisymm (not_lt.mp hle) hnn
    rw [hz]
    ring_nf

/-- Witness for C2, at the spec's own examples with `D` noon of day 0:
`"25:10:00"` resolves to day 1 at 01:10:00 and `"09:05:00"` to day 0 at
09:05:00. -/
theorem parseGTFSTime_resolves_witness :
    parseGTFSTime "25:10:00" 43200000 = some 90600000 ∧
    parseGTFSTime "09:05:00" 43200000 = some 32700000 := by
  constructor
  · rw [parseGTFSTime_resolves "25:10:00" 43200000 "25" "10" "00" [] 25 10 0
      rfl rfl rfl rfl]
    rfl
  · rw [parseGTFSTime_resolves "09:05:00" 43200000 "09" "05" "00" [] 9 5 0
      rfl rfl rfl rfl]
    rfl

/-! ## Sortedness of the departure list -/

/-- Ordering between two `[departureTime, row]` pairs: whenever both carry
a valid instant, the first is no later.  (A pair with an invalid instant
is vacuously related.) -/
def keyLe (a b : Option Int × Row) : Prop :=
  ∀ x y, a.1 = some x → b.1 = some y → x ≤ y

theorem insSorted_forall {α : Type} {P : α → Prop} (le : α → α → Bool) (x : α)
    (l : List α) (hx : P x) (hl : ∀ e ∈ l, P e) :
    ∀ e ∈ insSorted le x l, P e := by
  induction l with
  | nil => simpa [insSorted]
  | cons y ys ih =>
    simp only [insSorted]
    split
    · intro e he
      rcases List.mem_cons.mp he with rfl | he'
      · exact hl _ (List.mem_cons_self _ _)
      · exact ih (fun e' he' => hl e' (List.mem_cons_of_mem _ he')) e he'
    · intro e he
      rcases List.mem_cons.mp he with rfl | he'
      · exact hx
      · exact hl e he'

theorem stableSort_forall {α : Type} {P : α → Prop} (le : α → α → Bool)
    (l : List α) (hl : ∀ e ∈ l, P e) :
    ∀ e ∈ stableSort le l, P e := by
  suffices h : ∀ acc, (∀ e ∈ acc, P e) →
      ∀ e ∈ l.foldl (fun acc x => insSorted le x acc) acc, P e by
    exact h [] (by simp)
  induction l with
  | nil => intro acc hacc; simpa using hacc
  | cons x xs ih =>
    intro acc hacc
    exact ih (fun e' he' => hl e' (List.mem_cons_of_mem _ he'))
      (insSorted le x acc)
      (insSorted_forall le x acc (hl x (List.mem_cons_self _ _)) hacc)

theorem insSorted_pairwise (x : Option Int × Row) (l : List (Option Int × Row))
    (hx : x.1.isSome) (hl : ∀ e ∈ l, (e.1).isSome) (hs : l.Pairwise keyLe) :
    (insSorted depLe x l).Pairwise keyLe := by
  induction l with
  | nil => simp [insSorted]
  | cons y ys ih =>
    obtain ⟨ky, hky⟩ := Option.isSome_iff_exists.mp (hl y (List.mem_cons_self _ _))
    obtain ⟨kx, hkx⟩ := Option.isSome_iff_exists.mp hx
    rcases List.pairwise_cons.mp hs with ⟨hyall, hys⟩
    simp only [insSorted]
    split
    · next hle =>
      refine List.pairwise_cons.mpr ⟨?_, ih (fun e he =>
        hl e (List.mem_cons_of_mem _ he)) hys⟩
      refine insSorted_forall depLe x ys ?_ hyall
      intro a b ha hb
      rw [hky] at ha
      rw [hkx] at hb
      cases ha; cases hb
      simpa [depLe, hky, hkx] using hle
    · next hgt =>
      have hxy : kx ≤ ky := by
        have : ¬ (ky ≤ kx) := by simpa [depLe, hky, hkx] using hgt
        omega
      refine List.pairwise_cons.mpr ⟨?_, hs⟩
      intro e he
      rcases List.mem_cons.mp he with rfl | he'
      · intro a b ha hb
        rw [hkx] at ha; rw [hky] at hb
        cases ha; cases hb
        exact hxy
      · intro a b ha hb
        obtain ⟨ke, hke⟩ := Option.isSome_iff_exists.mp
          (hl e (List.mem_cons_of_mem _ he'))
        have h1 : ky ≤ ke := hyall e he' ky ke hky hke
        rw [hkx] at ha; rw [hke] at hb
        cases ha; cases hb
        omega

theorem stableSort_pairwise_aux :
    ∀ (l acc : List (Option Int × Row)), (∀ e ∈ l, (e.1).isSome) →
      (∀ e ∈ acc, (e.1).isSome) → acc.Pairwise keyLe →
      (l.foldl (fun acc x => insSorted depLe x acc) acc).Pairwise keyLe := by
  intro l
  induction l with
  | nil => intro acc _ _ hp; exact hp
  | cons x xs ih =>
    intro acc hl hacc hp
    have hx : x.1.isSome := hl x (List.mem_cons_self _ _)
    have hxs : ∀ e ∈ xs, (e.1).isSome := fun e he =>
      hl e (List.mem_cons_of_mem _ he)
    exact ih (insSorted depLe x acc) hxs
      (insSorted_forall depLe x acc hx hacc)
      (insSorted_pairwise x acc hx hacc hp)

theorem stableSort_pairwise (l : List (Option Int × Row))
    (hl : ∀ e ∈ l, (e.1).isSome) :
    (stableSort depLe l).Pairwise keyLe :=
  stableSort_pairwise_aux l [] hl (by simp) (by simp)

/-- C1 (amended): provided every stop-times row matching the query carries
a *well-formed* `HH:MM:SS` departure time, every element of
`getUpcomingDepartures(R, S, t, …)` has a departure instant `≥ t` and the
returned sequence is non-decreasing in instant.  (The well-formedness
proviso is forced: a malformed time yields an *invalid* instant that is
kept, not dropped — see the counterexample and C4.) -/
theorem nextDepartures_ge_and_sorted (routeId stopId : String) (t : Int)
    (tripsText stopTimesText : String)
    (hwf : ∀ r ∈ parseCSVFiltered stopTimesText
        (stopTimesPred (tripIdsForRoute routeId (parseCSV tripsText)) stopId),
      Option.all wellFormedGTFSTime (rowGet r "departure_time") = true) :
    (∀ e ∈ getUpcomingDepartures routeId stopId t tripsText stopTimesText,
        ∃ d, e.1 = some d ∧ t ≤ d) ∧
    (getUpcomingDepartures routeId stopId t tripsText stopTimesText).Pairwise keyLe := by
  have key : ∀ e ∈ (parseCSVFiltered stopTimesText
      (stopTimesPred (tripIdsForRoute routeId (parseCSV tripsText)) stopId)).filterMap
        (upcomingOfRow t), ∃ d, e.1 = some d ∧ t ≤ d := by
    intro e he
    obtain ⟨r, hr, hur⟩ := List.mem_filterMap.mp he
    have hwfr := hwf r hr
    unfold upcomingOfRow at hur
    cases hdt : rowGet r "departure_time" with
    | none => rw [hdt] at hur; cases hur
    | some dtStr =>
      rw [hdt] at hur hwfr
      simp only [Option.all] at hwfr
      dsimp only at hur
      obtain ⟨v, hv, hvge⟩ := parseGTFSTime_wellFormed t hwfr
      rw [hv] at hur
      dsimp only at hur
      rw [Option.some.injEq] at hur
      subst hur
      by_cases hlt : v < t
      · refine ⟨v + msPerDay, by simp [hlt], ?_⟩
        have h1 : t % msPerDay < msPerDay :=
          Int.emod_lt_of_pos t (by norm_num [msPerDay])
        simp only [dayStart, msPerDay] at hvge h1 ⊢
        omega
      · exact ⟨v, by simp [hlt], le_of_not_lt hlt⟩
  constructor
  · intro e he
    simp only [getUpcomingDepartures] at he
    split at he
    · cases he
    · exact stableSort_forall depLe _ key e he
  · simp only [getUpcomingDepartures]
    split
    · simp
    · refine stableSort_pairwise _ ?_
      intro e he
      obtain ⟨d, hd, _⟩ := key e he
      simp [hd]

/-- Witness for C1 at the spec's end-to-end scenario: route `R1`, stop
`B`, reference instant 2024-01-01T00:00:00Z. -/
theorem nextDepartures_ge_and_sorted_witness :
    (∀ e ∈ getUpcomingDepartures "R1" "B" 1704067200000 "trip_id,route_id\nT1,R1"
        "trip_id,stop_id,stop_sequence,departure_time\nT1,A,1,08:00:00\nT1,B,2,25:30:00",
      ∃ d, e.1 = some d ∧ (1704067200000 : Int) ≤ d) ∧
    (getUpcomingDepartures "R1" "B" 1704067200000 "trip_id,route_id\nT1,R1"
        "trip_id,stop_id,stop_sequence,departure_time\nT1,A,1,08:00:00\nT1,B,2,25:30:00").Pairwise
      keyLe :=
  nextDepartures_ge_and_sorted "R1" "B" 1704067200000 _ _ (by decide)

/-- Counterexample to C1 as stated: a stop-times row whose
`departure_time` is the malformed string `"oops"` still contributes an
element to the result, and that element carries an *invalid* instant
(`none`), so it does not have a departure instant `≥ t` (here `t = 1000`). -/
theorem nextDepartures_counterexample :
    (getUpcomingDepartures "R7" "S7" 1000 "trip_id,route_id\nT7,R7"
        "trip_id,stop_id,departure_time\nT7,S7,oops") =
      [(none, [("trip_id", "T7"), ("stop_id", "S7"), ("departure_time", "oops")])] ∧
    ∃ e ∈ getUpcomingDepartures "R7" "S7" 1000 "trip_id,route_id\nT7,R7"
        "trip_id,stop_id,departure_time\nT7,S7,oops",
      ∀ d : Int, ¬ (e.1 = some d ∧ (1000 : Int) ≤ d) := by
  refine ⟨by decide, ⟨(none, [("trip_id", "T7"), ("stop_id", "S7"),
    ("departure_time", "oops")]), by decide, ?_⟩⟩
  rintro d ⟨hd, -⟩
  exact Option.noConfusion hd

/-- C4 (code bug): a row with a malformed `departure_time` is *not*
dropped — `parseGTFSTime` returns an invalid date instead of throwing, so
the `try/catch` that is supposed to skip the row never fires, and the row
is returned with an invalid instant. -/
theorem malformed_row_not_dropped :
    getUpcomingDepartures "R1" "S1" 0 "trip_id,route_id\nT1,R1"
        "trip_id,stop_id,departure_time\nT1,S1,bad" =
      [(none, [("trip_id", "T1"), ("stop_id", "S1"), ("departure_time", "bad")])] ∧
    parseGTFSTime "bad" 0 = none := by
  exact ⟨by decide, by decide⟩

/-! ## Relating the plain and the filtered table parser (C3)

The two parsers differ in two ways: the filtered parser takes the *raw*
first line as header (the plain parser takes the first *non-blank* line),
and it trims each data line before splitting (the plain parser splits the
raw line).  The second difference is immaterial — trimming a line only
strips whitespace at its two ends, which the per-field trim removes
anyway — and the lemmas below prove that; the first difference is real,
see the counterexample. -/

theorem splitChar_ne_nil (sep : Char) (l : List Char) : splitChar sep l ≠ [] := by
  induction l with
  | nil => simp [splitChar]
  | cons c rest ih =>
    rcases h : splitChar sep rest with _ | ⟨h1, t1⟩
    · exact absurd h ih
    · simp only [splitChar, h]
      split <;> simp

theorem splitChar_cons (sep c : Char) (l : List Char) (h1 : List Char)
    (t1 : List (List Char)) (h : splitChar sep l = h1 :: t1) :
    splitChar sep (c :: l) = if c = sep then [] :: h1 :: t1 else (c :: h1) :: t1 := by
  simp only [splitChar, h]

theorem splitChar_of_not_mem (sep : Char) (l : List Char) (h : sep ∉ l) :
    splitChar sep l = [l] := by
  induction l with
  | nil => rfl
  | cons c rest ih =>
    have hc : c ≠ sep := fun hc => h (by rw [hc]; exact List.mem_cons_self _ _)
    have hr := ih fun hm => h (List.mem_cons_of_mem _ hm)
    rw [splitChar_cons sep c rest rest [] hr]
    simp [hc]

theorem splitChar_append (sep : Char) (a b : List Char) (ha : sep ∉ a) :
    splitChar sep (a ++ sep :: b) = a :: splitChar sep b := by
  induction a with
  | nil =>
    rcases h : splitChar sep b with _ | ⟨h1, t1⟩
    · exact absurd h (splitChar_ne_nil sep b)
    · rw [List.nil_append, splitChar_cons sep sep b h1 t1 h]
      simp [h]
  | cons c a' ih =>
    have hc : c ≠ sep := fun hc => ha (by rw [hc]; exact List.mem_cons_self _ _)
    have ih' := ih fun hm => ha (List.mem_cons_of_mem _ hm)
    rw [List.cons_append, splitChar_cons sep c _ a' (splitChar sep b) ih']
    simp [hc]

theorem exists_first_sep {sep : Char} {l : List Char} (h : sep ∈ l) :
    ∃ a b, l = a ++ sep :: b ∧ sep ∉ a := by
  induction l with
  | nil => cases h
  | cons c rest ih =>
    by_cases hc : c = sep
    · exact ⟨[], rest, by rw [hc]; rfl, by simp⟩
    · rcases List.mem_cons.mp h with h1 | h2
      · exact absurd h1.symm hc
      · obtain ⟨a, b, rfl, hna⟩ := ih h2
        refine ⟨c :: a, b, rfl, ?_⟩
        simp only [List.mem_cons, not_or]
        exact ⟨fun h => hc h.symm, hna⟩

theorem dropLastWhile_all {p : Char → Bool} {l : List Char}
    (h : ∀ x ∈ l, p x) : dropLastWhile p l = [] := by
  induction l with
  | nil => rfl
  | cons c rest ih =>
    have hr := ih fun x hx => h x (List.mem_cons_of_mem _ hx)
    simp only [dropLastWhile, hr]
    simp [h c (List.mem_cons_self _ _)]

theorem dropLastWhile_decomp (p : Char → Bool) (l : List Char) :
    ∃ w, l = dropLastWhile p l ++ w ∧ ∀ x ∈ w, p x := by
  induction l with
  | nil => exact ⟨[], rfl, by simp⟩
  | cons c rest ih =>
    obtain ⟨w, hw, hall⟩ := ih
    rcases hr : dropLastWhile p rest with _ | ⟨r1, rs⟩
    · have hrest : ∀ x ∈ rest, p x := by
        rw [hr, List.nil_append] at hw
        exact hw ▸ hall
      by_cases hc : p c
      · exact ⟨c :: rest, by simp [dropLastWhile, hr, hc],
          fun x hx => (List.mem_cons.mp hx).elim (fun h => h ▸ hc) (hrest x)⟩
      · exact ⟨rest, by simp [dropLastWhile, hr, hc], hrest⟩
    · refine ⟨w, ?_, hall⟩
      have hstep : dropLastWhile p (c :: rest) = c :: dropLastWhile p rest := by
        simp only [dropLastWhile, hr]
      rw [hstep, List.cons_append, ← hw]

theorem dropLastWhile_append_all (p : Char → Bool) (x w : List Char)
    (hall : ∀ c ∈ w, p c) :
    dropLastWhile p (x ++ w) = dropLastWhile p x := by
  induction x with
  | nil => simpa using dropLastWhile_all hall
  | cons c x' ih =>
    simp only [List.cons_append, dropLastWhile]
    rw [show x'.append w = x' ++ w from rfl, ih]

theorem trimList_append_ws (x w : List Char) (hall : ∀ c ∈ w, jsWs c) :
    jsTrimList (x ++ w) = jsTrimList x := by
  unfold jsTrimList
  rw [dropLastWhile_append_all jsWs x w hall]

theorem trimList_all_ws {l : List Char} (hall : ∀ x ∈ l, jsWs x) :
    jsTrimList l = [] := by
  unfold jsTrimList
  rw [dropLastWhile_all hall]
  rfl

theorem trim_cons_ws {c : Char} (hc : jsWs c = true) (h : List Char) :
    jsTrimList (c :: h) = jsTrimList h := by
  unfold jsTrimList
  rcases hr : dropLastWhile jsWs h with _ | ⟨r1, rs⟩
  · simp [dropLastWhile, hr, hc]
  · have hstep : dropLastWhile jsWs (c :: h) = c :: r1 :: rs := by
      simp only [dropLastWhile, hr]
    rw [hstep, List.dropWhile_cons_of_pos (by simp [hc])]

theorem ws_not_comma {c : Char} (h : jsWs c = true) : c ≠ ',' := by
  intro hc
  rw [hc] at h
  exact absurd h (by decide)

theorem fields_append_ws (w : List Char) (hall : ∀ x ∈ w, jsWs x)
    (x : List Char) :
    (splitChar ',' (x ++ w)).map jsTrimList = (splitChar ',' x).map jsTrimList := by
  induction x with
  | nil =>
    have hw : (',' : Char) ∉ w := fun hm => ws_not_comma (hall ',' hm) rfl
    rw [List.nil_append, splitChar_of_not_mem _ _ hw]
    simp only [List.map_cons, List.map_nil, trimList_all_ws hall]
    rfl
  | cons c x' ih =>
    rcases h2 : splitChar ',' x' with _ | ⟨h2h, h2t⟩
    · exact absurd h2 (splitChar_ne_nil _ _)
    rcases h1 : splitChar ',' (x' ++ w) with _ | ⟨h1h, h1t⟩
    · exact absurd h1 (splitChar_ne_nil _ _)
    rw [h1, h2] at ih
    rw [List.cons_append, splitChar_cons _ c _ h1h h1t h1,
      splitChar_cons _ c _ h2h h2t h2]
    by_cases hc : c = ','
    · simp only [if_pos hc, List.map_cons]
      simp only [List.map_cons] at ih
      rw [ih]
    · simp only [if_neg hc, List.map_cons]
      simp only [List.map_cons, List.cons.injEq] at ih
      obtain ⟨ihh, iht⟩ := ih
      rw [iht]
      by_cases hmem : (',' : Char) ∈ x'
      · obtain ⟨a, b, rfl, hna⟩ := exists_first_sep hmem
        have e2 : splitChar ',' (a ++ ',' :: b) = a :: splitChar ',' b :=
          splitChar_append _ a b hna
        have e1 : splitChar ',' ((a ++ ',' :: b) ++ w) = a :: splitChar ',' (b ++ w) := by
          rw [List.append_assoc, List.cons_append]
          exact splitChar_append _ a _ hna
        rw [e1] at h1
        rw [e2] at h2
        injection h1 with h1a _
        injection h2 with h2a _
        rw [← h1a, ← h2a]
      · have hmem1 : (',' : Char) ∉ x' ++ w := by
          simp only [List.mem_append, not_or]
          exact ⟨hmem, fun hm => ws_not_comma (hall ',' hm) rfl⟩
        rw [splitChar_of_not_mem _ _ hmem1] at h1
        rw [splitChar_of_not_mem _ _ hmem] at h2
        injection h1 with h1a _
        injection h2 with h2a _
        rw [← h1a, ← h2a]
        have : jsTrimList (c :: (x' ++ w)) = jsTrimList (c :: x') := by
          rw [show c :: (x' ++ w) = (c :: x') ++ w from rfl]
          exact trimList_append_ws (c :: x') w hall
        rw [this]

theorem fields_dropWhile (l : List Char) :
    (splitChar ',' (l.dropWhile jsWs)).map jsTrimList =
      (splitChar ',' l).map jsTrimList := by
  induction l with
  | nil => rfl
  | cons c rest ih =>
    by_cases hc : jsWs c = true
    · have hcc : c ≠ ',' := ws_not_comma hc
      rw [List.dropWhile_cons_of_pos (by simp [hc]), ih]
      rcases h2 : splitChar ',' rest with _ | ⟨hh, ht⟩
      · exact absurd h2 (splitChar_ne_nil _ _)
      rw [splitChar_cons _ c rest hh ht h2, if_neg hcc]
      simp only [List.map_cons]
      rw [trim_cons_ws hc hh]
    · rw [List.dropWhile_cons_of_neg (by simp [hc])]

/-- Trimming a whole line does not change the list of trimmed fields. -/
theorem fields_trim (l : List Char) :
    (splitChar ',' (jsTrimList l)).map jsTrimList =
      (splitChar ',' l).map jsTrimList := by
  obtain ⟨w, hw, hall⟩ := dropLastWhile_decomp jsWs l
  calc (splitChar ',' (jsTrimList l)).map jsTrimList
      = (splitChar ',' ((dropLastWhile jsWs l).dropWhile jsWs)).map jsTrimList := rfl
    _ = (splitChar ',' (dropLastWhile jsWs l)).map jsTrimList :=
        fields_dropWhile _
    _ = (splitChar ',' (dropLastWhile jsWs l ++ w)).map jsTrimList :=
        (fields_append_ws w hall _).symm
    _ = (splitChar ',' l).map jsTrimList := by rw [← hw]

/-- The string-level version of `fields_trim`: splitting the trimmed line
on commas and trimming each field gives the fields of the raw line. -/
theorem fields_of_jsTrim (line : String) :
    (jsSplit (jsTrim line) ',').map jsTrim = (jsSplit line ',').map jsTrim := by
  show ((splitChar ',' (jsTrim line).data).map List.asString).map jsTrim =
    ((splitChar ',' line.data).map List.asString).map jsTrim
  have hdata : (jsTrim line).data = jsTrimList line.data := rfl
  rw [hdata, List.map_map, List.map_map]
  have hcomp : (jsTrim ∘ List.asString) = (List.asString ∘ jsTrimList) :=
    funext fun l => rfl
  rw [hcomp, ← List.map_map, ← List.map_map]
  exact congrArg (List.map List.asString) (fields_trim line.data)

/-- C3 (amended): when the first line of the entry text is not blank,
`parseCSVFiltered(text, p)` returns exactly the rows of `parseCSV(text)`
satisfying `p`, in the same relative order.  (When the first line is
blank the two parsers choose *different* header lines — see the
counterexample.) -/
theorem parseCSVFiltered_eq_filter (text : String) (p : Row → Bool)
    (hfirst : jsTrim ((jsSplit text '\n').headD "") ≠ "") :
    parseCSVFiltered text p = (parseCSV text).filter p := by
  rcases hsp : jsSplit text '\n' with _ | ⟨l0, rest⟩
  · exfalso
    have hne := splitChar_ne_nil '\n' text.data
    unfold jsSplit at hsp
    exact hne (List.map_eq_nil_iff.mp hsp)
  · rw [hsp] at hfirst
    simp only [List.headD_cons] at hfirst
    unfold parseCSVFiltered parseCSV
    rw [hsp, List.filter_cons_of_pos (by simpa using hfirst)]
    dsimp only
    clear hsp
    induction rest with
    | nil => rfl
    | cons x xs ih =>
      by_cases hq : jsTrim x = ""
      · rw [List.filterMap_cons, List.filter_cons]
        simp only [hq, if_pos rfl, decide_not]
        simpa using ih
      · have hrow : mkRow ((jsSplit l0 ',').map jsTrim)
            ((jsSplit (jsTrim x) ',').map jsTrim)
            = mkRow ((jsSplit l0 ',').map jsTrim) ((jsSplit x ',').map jsTrim) := by
          rw [fields_of_jsTrim]
        rw [List.filterMap_cons, List.filter_cons]
        simp only [hq, if_neg hq, decide_not]
        by_cases hp : p (mkRow ((jsSplit l0 ',').map jsTrim)
            ((jsSplit x ',').map jsTrim)) = true
        · simp only [hrow, hp, if_pos rfl, List.map_cons, List.filter_cons,
            decide_eq_true_eq]
          rw [ih]
          simp [hq, hp]
        · have hp' : p (mkRow ((jsSplit l0 ',').map jsTrim)
              ((jsSplit x ',').map jsTrim)) = false := by
            simpa using hp
          simp only [hrow, hp', List.map_cons, List.filter_cons]
          rw [ih]
          simp [hq, hp']

/-- Counterexample to C3 as stated: on input with a leading empty line
the two parsers disagree — `parseCSV` skips the blank line and reads
`a,b` as the header, while `parseCSVFiltered` takes the *blank* line as
the header, keying every row by the empty column name. -/
theorem parseCSVFiltered_counterexample :
    parseCSVFiltered "\na,b\n1,2" (fun _ => true) = [[("", "a")], [("", "1")]] ∧
    (parseCSV "\na,b\n1,2").filter (fun _ => true) = [[("a", "1"), ("b", "2")]] ∧
    parseCSVFiltered "\na,b\n1,2" (fun _ => true) ≠
      (parseCSV "\na,b\n1,2").filter (fun _ => true) := by
  exact ⟨by decide, by decide, by decide⟩

/-- Witness for C3: a two-row table with a non-blank first line, blank
interior lines and a predicate selecting one row. -/
theorem parseCSVFiltered_eq_filter_witness :
    jsTrim ((jsSplit "a,b\n1,2\n\n3,4" '\n').headD "") ≠ "" ∧
    parseCSVFiltered "a,b\n1,2\n\n3,4" (fun r => rowGet r "a" == some "3") =
      (parseCSV "a,b\n1,2\n\n3,4").filter (fun r => rowGet r "a" == some "3") :=
  ⟨by decide, parseCSVFiltered_eq_filter "a,b\n1,2\n\n3,4"
    (fun r => rowGet r "a" == some "3") (by decide)⟩

/-! ## The module-level archive cache (gtfs-utils)

The module holds one mutable cache object
`{ zipData, unzipped, parsedFiles, timestamp }`.  The async functions
below are modelled as explicit state transformers; the raw ZIP bytes are
an abstract type `β` and fflate's `unzipSync` an uninterpreted pure
function `unzip : β → Except String Entries` (an `Except.error` is a
thrown extraction exception; `strFromU8` is folded into the entry map,
whose values are the decoded texts).  `downloadGTFSZip`'s outcome is the
`fetchResult` argument, and each transformer also returns how many
Fetcher invocations it performed. -/

/-- Decompressed entries: entry name to decoded text. -/
abbrev Entries := List (String × String)

/-- `Map.get` / object-property lookup: the most recent binding wins
(`mapSet` conses, so the first match is the latest). -/
def mapGet {α : Type} : List (String × α) → String → Option α
  | [], _ => none
  | (k', v) :: rest, k => if k' = k then some v else mapGet rest k

/-- `Map.set`: the new binding shadows any older one.  (Only
`get`/`has`/`set`/`clear` are ever used by the source, and on those this
model agrees with a JS `Map`; iteration order is not observed.) -/
def mapSet {α : Type} (l : List (String × α)) (k : String) (v : α) :
    List (String × α) := (k, v) :: l

/-- The gtfs-utils module cache object. -/
structure CacheState (β : Type) where
  zipData : Option β
  unzipped : Option Entries
  parsedFiles : List (String × List Row)
  timestamp : Int

/-- `CACHE_TTL = 3600 * 6 * 1000` (6 hours in milliseconds). -/
def CACHE_TTL : Int := 3600 * 6 * 1000

/-- The cache-miss path of `getCachedZip`: download (may fail), then
`cache.zipData = zipData; cache.unzipped = unzipSync(zipData);
cache.parsedFiles.clear(); cache.timestamp = now`.  When `unzipSync`
throws, the exception propagates *after* `cache.zipData` was assigned:
the old `unzipped`/`parsedFiles`/`timestamp` survive next to the new
bytes. -/
def refreshZip {β : Type} (unzip : β → Except String Entries) (s : CacheState β)
    (now : Int) (fetchResult : Except String β) :
    CacheState β × Except String β × Nat :=
  match fetchResult with
  | .error e => (s, .error e, 1)
  | .ok zipData =>
    match unzip zipData with
    | .error e => ({ s with zipData := some zipData }, .error e, 1)
    | .ok u => (⟨some zipData, some u, [], now⟩, .ok zipData, 1)

/-- `getCachedZip(url)`: serve the cached bytes when both `zipData` and
`unzipped` are present and fresh (`now - timestamp < CACHE_TTL`),
otherwise refresh. -/
def getCachedZip {β : Type} (unzip : β → Except String Entries) (s : CacheState β)
    (now : Int) (fetchResult : Except String β) :
    CacheState β × Except String β × Nat :=
  match s.zipData, s.unzipped with
  | some zd, some _ =>
    if now - s.timestamp < CACHE_TTL then (s, .ok zd, 0)
    else refreshZip unzip s now fetchResult
  | _, _ => refreshZip unzip s now fetchResult

/-- `parseCSVFromZip(zipData, filename)`: serve a memoized parse if
present; otherwise use the cached `unzipped` entries — *ignoring the
`zipData` argument* — or unzip the argument when no entries are cached;
memoize every file except `stop_times.txt`. -/
def parseCSVFromZip {β : Type} (unzip : β → Except String Entries)
    (s : CacheState β) (zipData : β) (filename : String) :
    CacheState β × Except String (List Row) :=
  match mapGet s.parsedFiles filename with
  | some rows => (s, .ok rows)
  | none =>
    let unzipStep : Except String (CacheState β × Entries) :=
      match s.unzipped with
      | some u => .ok (s, u)
      | none =>
        match unzip zipData with
        | .error e => .error e
        | .ok u => .ok ({ s with unzipped := some u }, u)
    match unzipStep with
    | .error e => (s, .error e)
    | .ok (s1, u) =>
      match mapGet u filename with
      | none => (s1, .error ("File " ++ filename ++ " not found in ZIP"))
      | some text =>
        let rows := parseCSV text
        if filename ≠ "stop_times.txt" then
          ({ s1 with parsedFiles := mapSet s1.parsedFiles filename rows }, .ok rows)
        else (s1, .ok rows)

/-- `parseCSVFromZipFiltered(zipData, filename, filterFn)`: like the
plain variant but never consults or writes the parse memo. -/
def parseCSVFromZipFiltered {β : Type} (unzip : β → Except String Entries)
    (s : CacheState β) (zipData : β) (filename : String) (filterFn : Row → Bool) :
    CacheState β × Except String (List Row) :=
  let unzipStep : Except String (CacheState β × Entries) :=
    match s.unzipped with
    | some u => .ok (s, u)
    | none =>
      match unzip zipData with
      | .error e => .error e
      | .ok u => .ok ({ s with unzipped := some u }, u)
  match unzipStep with
  | .error e => (s, .error e)
  | .ok (s1, u) =>
    match mapGet u filename with
    | none => (s1, .error ("File " ++ filename ++ " not found in ZIP"))
    | some text => (s1, .ok (parseCSVFiltered text filterFn))

/-- The C5 invariant: cached decompressed entries are exactly the
extraction of the cached raw bytes, and every memoized parsed table is
the parse of an entry of those same cached entries. -/
def CacheInv {β : Type} (unzip : β → Except String Entries) (s : CacheState β) : Prop :=
  (∀ u, s.unzipped = some u → ∃ b, s.zipData = some b ∧ unzip b = .ok u) ∧
  (∀ f rows, mapGet s.parsedFiles f = some rows →
    ∃ u text, s.unzipped = some u ∧ mapGet u f = some text ∧ rows = parseCSV text)

theorem refreshZip_inv {β : Type} (unzip : β → Except String Entries)
    (s : CacheState β) (now : Int) (fetchResult : Except String β)
    (hinv : CacheInv unzip s)
    (hok : ∀ b, fetchResult = Except.ok b → ∃ u, unzip b = Except.ok u) :
    CacheInv unzip (refreshZip unzip s now fetchResult).1 := by
  rcases fetchResult with e | b
  · simpa only [refreshZip] using hinv
  · obtain ⟨u, hu⟩ := hok b rfl
    simp only [refreshZip, hu]
    constructor
    · rintro u' hu'
      cases hu'
      exact ⟨b, rfl, hu⟩
    · rintro f rows h
      exact Option.noConfusion h

/-- The invariant established by caching freshly-unzipped entries of the
cached bytes over a state whose `unzipped` slot was empty. -/
theorem cacheInv_set_unzipped {β : Type} (unzip : β → Except String Entries)
    (s : CacheState β) (zipData : β) (u : Entries)
    (hinv : CacheInv unzip s) (hzd : s.zipData = some zipData)
    (hunz : s.unzipped = none) (hup : unzip zipData = Except.ok u) :
    CacheInv unzip { s with unzipped := some u } := by
  constructor
  · intro u' hu'
    simp only at hu'
    cases hu'
    exact ⟨zipData, hzd, hup⟩
  · intro f rows h
    simp only at h
    obtain ⟨u', text', hu', _, _⟩ := hinv.2 f rows h
    rw [hunz] at hu'
    exact Option.noConfusion hu'

theorem mapGet_mapSet {α : Type} (l : List (String × α)) (k f : String) (v : α) :
    mapGet (mapSet l k v) f = if k = f then some v else mapGet l f := by
  simp [mapSet, mapGet]

/-- Memoizing `parseCSV text` for `filename` preserves the invariant when
`text` is the `filename` entry of the cached `unzipped` entries. -/
theorem cacheInv_memoize {β : Type} (unzip : β → Except String Entries)
    (s : CacheState β) (filename text : String) (u : Entries)
    (hinv : CacheInv unzip s) (hunz : s.unzipped = some u)
    (hent : mapGet u filename = some text) :
    CacheInv unzip { s with parsedFiles := mapSet s.parsedFiles filename (parseCSV text) } := by
  constructor
  · exact hinv.1
  · intro f rows h
    simp only at h
    rw [mapGet_mapSet] at h
    split at h
    · next heq =>
      cases h
      exact ⟨u, text, hunz, heq ▸ hent, rfl⟩
    · exact hinv.2 f rows h

/-- C5 (amended): the invariant — decompressed entries derived from the
cached raw bytes, memoized tables derived from those entries — is
preserved by `getCachedZip` whenever extraction of the fetched bytes
succeeds (including cache hits and fetch failures), and by both parse
functions whenever they are called with the cached raw bytes.  A refresh
in which extraction *fails* breaks it: the new bytes are assigned before
`unzipSync` throws, leaving them paired with the old entries — see the
counterexample. -/
theorem cacheInv_preserved {β : Type} (unzip : β → Except String Entries) :
    (∀ (s : CacheState β) (now : Int) (fetchResult : Except String β),
      CacheInv unzip s →
      (∀ b, fetchResult = Except.ok b → ∃ u, unzip b = Except.ok u) →
      CacheInv unzip (getCachedZip unzip s now fetchResult).1) ∧
    (∀ (s : CacheState β) (zipData : β) (filename : String),
      CacheInv unzip s → s.zipData = some zipData →
      CacheInv unzip (parseCSVFromZip unzip s zipData filename).1) ∧
    (∀ (s : CacheState β) (zipData : β) (filename : String) (filterFn : Row → Bool),
      CacheInv unzip s → s.zipData = some zipData →
      CacheInv unzip (parseCSVFromZipFiltered unzip s zipData filename filterFn).1) := by
  refine ⟨?_, ?_, ?_⟩
  · intro s now fetchResult hinv hok
    rcases hz : s.zipData with _ | zd <;> rcases hu : s.unzipped with _ | uz <;>
      simp only [getCachedZip, hz, hu]
    case none.none | none.some | some.none =>
      exact refreshZip_inv unzip s now fetchResult hinv hok
    case some.some =>
      split
      · exact hinv
      · exact refreshZip_inv unzip s now fetchResult hinv hok
  · intro s zipData filename hinv hzd
    rcases hmemo : mapGet s.parsedFiles filename with _ | rows
    case some => simpa only [parseCSVFromZip, hmemo] using hinv
    rcases hunz : s.unzipped with _ | u
    case some =>
      rcases hent : mapGet u filename with _ | text
      · simpa only [parseCSVFromZip, hmemo, hunz, hent] using hinv
      · simp only [parseCSVFromZip, hmemo, hunz, hent]
        split
        · rw [← hunz]
          exact cacheInv_memoize unzip s filename text u hinv hunz hent
        · exact hinv
    case none =>
      rcases hup : unzip zipData with e | u
      · simpa only [parseCSVFromZip, hmemo, hunz, hup] using hinv
      · have base : CacheInv unzip { s with unzipped := some u } :=
          cacheInv_set_unzipped unzip s zipData u hinv hzd hunz hup
        rcases hent : mapGet u filename with _ | text
        · simpa only [parseCSVFromZip, hmemo, hunz, hup, hent] using base
        · simp only [parseCSVFromZip, hmemo, hunz, hup, hent]
          split
          · exact cacheInv_memoize unzip { s with unzipped := some u }
              filename text u base rfl hent
          · exact base
  · intro s zipData filename filterFn hinv hzd
    rcases hunz : s.unzipped with _ | u
    case some =>
      rcases hent : mapGet u filename with _ | text <;>
        simpa only [parseCSVFromZipFiltered, hunz, hent] using hinv
    case none =>
      rcases hup : unzip zipData with e | u
      · simpa only [parseCSVFromZipFiltered, hunz, hup] using hinv
      · have base : CacheInv unzip { s with unzipped := some u } :=
          cacheInv_set_unzipped unzip s zipData u hinv hzd hunz hup
        rcases hent : mapGet u filename with _ | text <;>
          simpa only [parseCSVFromZipFiltered, hunz, hup, hent] using base

/-- A concrete extractor for the counterexamples: bytes `0` form a valid
(empty) archive, any other bytes are corrupt. -/
def unzipDemo : Nat → Except String Entries :=
  fun b => if b = 0 then .ok [] else .error "bad archive"

/-- Counterexample to C5 as stated: start from a valid cached state
(bytes 0, entries of bytes 0), refresh at TTL expiry with bytes 1 whose
extraction fails.  The failed refresh leaves `zipData = 1` paired with
the *old* entries: the invariant is broken, and old and new snapshot
data are visibly mixed. -/
theorem cacheInv_broken_counterexample :
    CacheInv unzipDemo ⟨some 0, some [], [], 0⟩ ∧
    (getCachedZip unzipDemo ⟨some 0, some [], [], 0⟩ CACHE_TTL (Except.ok 1)).1 =
      ⟨some 1, some [], [], 0⟩ ∧
    ¬ CacheInv unzipDemo
      (getCachedZip unzipDemo ⟨some 0, some [], [], 0⟩ CACHE_TTL (Except.ok 1)).1 := by
  refine ⟨⟨?_, ?_⟩, rfl, ?_⟩
  · rintro u hu
    cases hu
    exact ⟨0, rfl, rfl⟩
  · rintro f rows h
    exact Option.noConfusion h
  · intro hinv
    have hstate : (getCachedZip unzipDemo ⟨some 0, some [], [], 0⟩ CACHE_TTL
        (Except.ok 1)).1 = ⟨some 1, some [], [], 0⟩ := rfl
    rw [hstate] at hinv
    obtain ⟨b, hb, hub⟩ := hinv.1 [] rfl
    cases hb
    simp [unzipDemo] at hub

/-- C6: when both `zipData` and `unzipped` are cached ("a snapshot
exists") and `now − timestamp < CACHE_TTL`, `getCachedZip` returns the
identical state and cached bytes with zero Fetcher invocations; once the
TTL has expired it performs exactly one fetch, and (when fetch and
extraction succeed) installs and serves the new snapshot. -/
theorem getCachedZip_ttl {β : Type} (unzip : β → Except String Entries)
    (s : CacheState β) (now : Int) (fetchResult : Except String β)
    (b : β) (u : Entries) (hzd : s.zipData = some b) (huz : s.unzipped = some u) :
    (now - s.timestamp < CACHE_TTL →
      getCachedZip unzip s now fetchResult = (s, Except.ok b, 0)) ∧
    (¬ (now - s.timestamp < CACHE_TTL) →
      (getCachedZip unzip s now fetchResult).2.2 = 1 ∧
      ∀ nb e, fetchResult = Except.ok nb → unzip nb = Except.ok e →
        getCachedZip unzip s now fetchResult =
          (⟨some nb, some e, [], now⟩, Except.ok nb, 1)) := by
  constructor
  · intro hfresh
    simp only [getCachedZip, hzd, huz]
    rw [if_pos hfresh]
  · intro hstale
    constructor
    · simp only [getCachedZip, hzd, huz]
      rw [if_neg hstale]
      rcases fetchResult with e | nb
      · rfl
      · rcases hup : unzip nb with e | u' <;> simp [refreshZip, hup]
    · intro nb e hf hup
      subst hf
      simp only [getCachedZip, hzd, huz]
      rw [if_neg hstale]
      simp [refreshZip, hup]

/-- A trivially valid extractor used by the C6 witness. -/
def unzipNil : Nat → Except String Entries := fun _ => .ok []

/-- Witness for C6 at a concrete cached state: a fresh call (now = 0,
timestamp = 0) serves the cached bytes with no fetch. -/
theorem getCachedZip_ttl_witness :
    ((0 : Int) - 0 < CACHE_TTL →
      getCachedZip unzipNil ⟨some 5, some [], [], 0⟩ 0 (Except.ok 6) =
        (⟨some 5, some [], [], 0⟩, Except.ok 5, 0)) ∧
    (¬ ((0 : Int) - 0 < CACHE_TTL) →
      (getCachedZip unzipNil ⟨some 5, some [], [], 0⟩ 0 (Except.ok 6)).2.2 = 1 ∧
      ∀ nb e, (Except.ok 6 : Except String Nat) = Except.ok nb →
        unzipNil nb = Except.ok e →
        getCachedZip unzipNil ⟨some 5, some [], [], 0⟩ 0 (Except.ok 6) =
          (⟨some nb, some e, [], 0⟩, Except.ok nb, 1)) :=
  getCachedZip_ttl unzipNil ⟨some 5, some [], [], 0⟩ 0 (Except.ok 6) 5 [] rfl rfl

/-! ## Purity of the table parsers (C7) -/

/-- A cache state coherent with the given raw bytes: its decompressed
entries (when present) are the extraction of those bytes, and every
memoized table is the parse of one of those entries.  These are exactly
the states the module produces when the bytes come from `getCachedZip`. -/
def CacheCoherent {β : Type} (unzip : β → Except String Entries) (zipData : β)
    (s : CacheState β) : Prop :=
  ∃ E, unzip zipData = .ok E ∧
    (s.unzipped = none ∨ s.unzipped = some E) ∧
    ∀ f rows, mapGet s.parsedFiles f = some rows →
      ∃ text, mapGet E f = some text ∧ rows = parseCSV text

theorem parseCSVFromZip_char {β : Type} (unzip : β → Except String Entries)
    (s : CacheState β) (zipData : β) (filename : String) (E : Entries)
    (hE : unzip zipData = Except.ok E)
    (hunz : s.unzipped = none ∨ s.unzipped = some E)
    (hmemo : ∀ f rows, mapGet s.parsedFiles f = some rows →
      ∃ text, mapGet E f = some text ∧ rows = parseCSV text) :
    (parseCSVFromZip unzip s zipData filename).2 =
      match mapGet E filename with
      | some text => Except.ok (parseCSV text)
      | none => Except.error ("File " ++ filename ++ " not found in ZIP") := by
  rcases hm : mapGet s.parsedFiles filename with _ | rows
  · rcases hunz with hunz | hunz
    · rcases hent : mapGet E filename with _ | text
      · simp [parseCSVFromZip, hm, hunz, hE, hent]
      · simp only [parseCSVFromZip, hm, hunz, hE, hent]
        split <;> rfl
    · rcases hent : mapGet E filename with _ | text
      · simp [parseCSVFromZip, hm, hunz, hent]
      · simp only [parseCSVFromZip, hm, hunz, hent]
        split <;> rfl
  · obtain ⟨text, hent, hrows⟩ := hmemo filename rows hm
    simp only [parseCSVFromZip, hm, hent]
    rw [hrows]

theorem parseCSVFromZipFiltered_char {β : Type} (unzip : β → Except String Entries)
    (s : CacheState β) (zipData : β) (filename : String) (filterFn : Row → Bool)
    (E : Entries) (hE : unzip zipData = Except.ok E)
    (hunz : s.unzipped = none ∨ s.unzipped = some E) :
    (parseCSVFromZipFiltered unzip s zipData filename filterFn).2 =
      match mapGet E filename with
      | some text => Except.ok (parseCSVFiltered text filterFn)
      | none => Except.error ("File " ++ filename ++ " not found in ZIP") := by
  rcases hunz with hunz | hunz <;>
    rcases hent : mapGet E filename with _ | text <;>
      simp [parseCSVFromZipFiltered, hunz, hE, hent]

/-- C7 (amended): on *coherent* cache states — the states the module
actually reaches when the bytes argument is the cached feed — both table
parsers return results determined by their arguments alone: two calls
with equal arguments give equal results no matter which coherent cache
state each one sees.  Without coherence the functions are *not* pure
functions of their arguments — see the counterexample. -/
theorem parseCSVFromZip_pure_on_coherent {β : Type} (unzip : β → Except String Entries)
    (s1 s2 : CacheState β) (zipData : β) (filename : String) (filterFn : Row → Bool)
    (h1 : CacheCoherent unzip zipData s1) (h2 : CacheCoherent unzip zipData s2) :
    (parseCSVFromZip unzip s1 zipData filename).2 =
      (parseCSVFromZip unzip s2 zipData filename).2 ∧
    (parseCSVFromZipFiltered unzip s1 zipData filename filterFn).2 =
      (parseCSVFromZipFiltered unzip s2 zipData filename filterFn).2 := by
  obtain ⟨E1, hE1, hu1, hm1⟩ := h1
  obtain ⟨E2, hE2, hu2, hm2⟩ := h2
  have hEE : E1 = E2 := by
    rw [hE1] at hE2
    cases hE2
    rfl
  subst hEE
  constructor
  · rw [parseCSVFromZip_char unzip s1 zipData filename E1 hE1 hu1 hm1,
      parseCSVFromZip_char unzip s2 zipData filename E1 hE2 hu2 hm2]
  · rw [parseCSVFromZipFiltered_char unzip s1 zipData filename filterFn E1 hE1 hu1,
      parseCSVFromZipFiltered_char unzip s2 zipData filename filterFn E1 hE2 hu2]

/-- The one-entry extractor used by the C7 counterexample and witness. -/
def unzipOne : Nat → Except String Entries := fun _ => .ok [("t.txt", "a\n1")]

/-- Counterexample to C7 as stated: two calls to `parseCSVFromZip` with
*equal arguments* (same bytes, same entry name) return different results
under two different module-cache contents — a stale memoized table wins
over the actual entry text, so the function is not a pure function of
its inputs. -/
theorem parseCSVFromZip_impure_counterexample :
    (parseCSVFromZip unzipOne
        ⟨none, none, [("t.txt", [[("a", "999")]])], 0⟩ 0 "t.txt").2 =
      Except.ok [[("a", "999")]] ∧
    (parseCSVFromZip unzipOne ⟨none, none, [], 0⟩ 0 "t.txt").2 =
      Except.ok [[("a", "1")]] ∧
    ([[("a", "999")]] : List Row) ≠ [[("a", "1")]] :=
  ⟨rfl, rfl, by decide⟩

/-- Witness for C7 on concrete coherent states: an empty cache and a
cache that has already unzipped the same feed. -/
theorem parseCSVFromZip_pure_on_coherent_witness :
    (parseCSVFromZip unzipOne ⟨some 0, some [("t.txt", "a\n1")], [], 0⟩ 0 "t.txt").2 =
      (parseCSVFromZip unzipOne ⟨none, none, [], 0⟩ 0 "t.txt").2 ∧
    (parseCSVFromZipFiltered unzipOne ⟨some 0, some [("t.txt", "a\n1")], [], 0⟩ 0 "t.txt"
        (fun _ => true)).2 =
      (parseCSVFromZipFiltered unzipOne ⟨none, none, [], 0⟩ 0 "t.txt" (fun _ => true)).2 :=
  parseCSVFromZip_pure_on_coherent _ _ _ _ _ _
    ⟨[("t.txt", "a\n1")], rfl, Or.inr rfl, fun _ _ h => Option.noConfusion h⟩
    ⟨[("t.txt", "a\n1")], rfl, Or.inl rfl, fun _ _ h => Option.noConfusion h⟩

/-! ## Persisted-cache keys (kv-cache module, C8) -/

/-- `hash & hash` / the implicit `ToInt32` of the shift: wrap to a signed
32-bit integer. -/
def toInt32 (n : Int) : Int := (n + 2 ^ 31) % 2 ^ 32 - 2 ^ 31

/-- One step of `hashUrl`'s loop:
`hash = ((hash << 5) - hash) + char; hash = hash & hash`. -/
def hashStep (h : Int) (c : Nat) : Int := toInt32 (toInt32 (h * 32) - h + c)

/-- One base-36 digit, `0`–`9` then lowercase `a`–`z`. -/
def base36Digit (n : Nat) : Char :=
  if n < 10 then Char.ofNat ('0'.toNat + n) else Char.ofNat ('a'.toNat + (n - 10))

/-- Base-36 digits of `n`, most significant first; `fuel` bounds the
recursion and any `fuel ≥ n` is enough. -/
def b36 : Nat → Nat → List Char
  | 0, _ => []
  | fuel + 1, n => if n = 0 then [] else b36 fuel (n / 36) ++ [base36Digit (n % 36)]

/-- `Number.prototype.toString(36)` for a non-negative integer. -/
def natToBase36 (n : Nat) : String :=
  if n = 0 then "0" else (b36 (n + 1) n).asString

/-- `hashUrl(url)` of kv-cache: fold the 31·h+c loop in 32-bit signed
arithmetic over the characters (`charCodeAt` agrees with the code point
for the basic plane, which covers every URL here), then render
`Math.abs(hash)` in base 36. -/
def hashUrl (url : String) : String :=
  natToBase36 (url.data.foldl (fun h c => hashStep h c.toNat) 0).natAbs

/-- The key `getCachedRoutes` passes to the KV store. -/
def getCachedRoutesKey (gtfsUrl : String) : String := "gtfs:routes:" ++ hashUrl gtfsUrl

/-- The key `getCachedStops` passes to the KV store. -/
def getCachedStopsKey (gtfsUrl : String) : String := "gtfs:stops:" ++ hashUrl gtfsUrl

/-- The key `getCachedTrips` passes to the KV store. -/
def getCachedTripsKey (gtfsUrl : String) : String := "gtfs:trips:" ++ hashUrl gtfsUrl

/-- C8 (amended): persisted-cache keys are derived deterministically from
the source URL in the format `"<table>:<urlHash>"`, and the per-table
namespaces never collide with each other for any URL.  (Keys of two
*distinct* URLs for the same table are *not* always distinct — the hash
is 32-bit, see the counterexample.) -/
theorem kvKeys_format_and_namespaced (url : String) :
    getCachedRoutesKey url = "gtfs:routes:" ++ hashUrl url ∧
    getCachedStopsKey url = "gtfs:stops:" ++ hashUrl url ∧
    getCachedTripsKey url = "gtfs:trips:" ++ hashUrl url ∧
    getCachedRoutesKey url ≠ getCachedStopsKey url ∧
    getCachedRoutesKey url ≠ getCachedTripsKey url ∧
    getCachedStopsKey url ≠ getCachedTripsKey url := by
  refine ⟨rfl, rfl, rfl, ?_, ?_, ?_⟩
  · intro heq
    have hlen := congrArg (fun s : String => s.data.length) heq
    simp only [getCachedRoutesKey, getCachedStopsKey, String.data_append,
      List.length_append, List.length_cons, List.length_nil] at hlen
    omega
  · intro heq
    have hlen := congrArg (fun s : String => s.data.length) heq
    simp only [getCachedRoutesKey, getCachedTripsKey, String.data_append,
      List.length_append, List.length_cons, List.length_nil] at hlen
    omega
  · intro heq
    have hdata := congrArg String.data heq
    simp only [getCachedStopsKey, getCachedTripsKey, String.data_append] at hdata
    have := (List.append_inj hdata (by rfl)).1
    exact absurd this (by decide)

/-- Counterexample to C8 as stated: the 32-bit hash collides — `"Aa"` and
`"BB"` are distinct URLs with the same `hashUrl`, so their routes-table
keys coincide. -/
theorem hashUrl_collision_counterexample :
    ("Aa" : String) ≠ "BB" ∧
    getCachedRoutesKey "Aa" = getCachedRoutesKey "BB" := by
  exact ⟨by decide, by decide⟩

/-! ## Request handlers (index.js)

The handler cores are modelled as functions from the already-parsed
tables (the handlers obtain them through `getCachedZip` /
`parseCSVFromZip`) and the raw query-parameter strings to the list each
response serialises.  JS `Number`s are idealised as real numbers with
`NaN` as `none`; `Math.round(x)` is `⌊x + 1/2⌋`. -/

/-- `s.includes(sub)` on character lists. -/
def containsSub (needle : List Char) : List Char → Bool
  | [] => needle.isEmpty
  | c :: t => needle.isPrefixOf (c :: t) || containsSub needle t

/-- `s.includes(sub)`. -/
def jsIncludes (s sub : String) : Bool := containsSub sub.data s.data

/-- `s.toLowerCase()` (ASCII lowering; the locale-independent simple
case folding agrees on the identifiers and names compared here). -/
def jsToLower (s : String) : String := (s.data.map Char.toLower).asString

/-- `list.slice(0, end)`: a `NaN` end (`none`) truncates to zero
elements (`ToIntegerOrInfinity(NaN) = 0`); a negative end counts from
the back. -/
def jsSlice0 {α : Type} (l : List α) (endArg : Option Int) : List α :=
  match endArg with
  | none => []
  | some e => if e < 0 then l.take (l.length + e).toNat else l.take e.toNat

/-- `parseInt(searchParams.get(p) || default)`: an absent (`null`) or
empty parameter falls back to the default string before parsing. -/
def limitFromParam (param : Option String) (defaultStr : String) : Option Int :=
  jsParseInt (match param with
    | none => defaultStr
    | some s => if s = "" then defaultStr else s)

/-- Zero-padded two-digit rendering. -/
def pad2 (n : Nat) : String := if n < 10 then "0" ++ Nat.repr n else Nat.repr n

/-- `depTime.toTimeString().split(' ')[0]`: the wall-clock `HH:MM:SS` of
the instant; an invalid date renders `"Invalid Date"`, whose first
space-separated word is `"Invalid"`. -/
def toTimeStringHMS (d : Option Int) : String :=
  match d with
  | none => "Invalid"
  | some v =>
    let secs := (v % msPerDay).toNat / 1000
    pad2 (secs / 3600) ++ ":" ++ pad2 (secs % 3600 / 60) ++ ":" ++ pad2 (secs % 60)

/-- `handleDepartures`, down to the list the JSON response carries:
validate `route_id`/`stop_id` (absent or empty is a caller error),
compute the upcoming departures, and serialise the first `limit` of
them as `(departure_time, trip_id, stop_sequence)`. -/
def handleDeparturesList (routeId stopId : Option String) (limitStr : Option String)
    (tripsText stopTimesText : String) (now : Int) :
    Except String (List (String × Option String × Option String)) :=
  let limitVal := limitFromParam limitStr "5"
  match routeId, stopId with
  | some rid, some sid =>
    if rid = "" ∨ sid = "" then .error "route_id and stop_id are required"
    else
      let results := getUpcomingDepartures rid sid now tripsText stopTimesText
      if results.isEmpty then .ok []
      else .ok ((jsSlice0 results limitVal).map fun p =>
        (toTimeStringHMS p.1, rowGet p.2 "trip_id", rowGet p.2 "stop_sequence"))
  | _, _ => .error "route_id and stop_id are required"

/-! ### findStop (geo search) -/

/-- A stop as `handleFindStop` sees it, with `parseFloat`-ed coordinates
(`none` is a `NaN` parse of the CSV string). -/
structure GeoStop where
  stop_id : String
  stop_name : String
  lat : Option Real
  lon : Option Real

/-- JS `Math.atan2` on the reals (the signed-zero distinctions of IEEE
`atan2` collapse; every use here has non-negative arguments). -/
noncomputable def jsAtan2 (y x : Real) : Real :=
  if 0 < x then Real.arctan (y / x)
  else if x < 0 then
    (if 0 ≤ y then Real.arctan (y / x) + Real.pi else Real.arctan (y / x) - Real.pi)
  else if 0 < y then Real.pi / 2
  else if y < 0 then -(Real.pi / 2)
  else 0

/-- `haversineDistance(lat1, lon1, lat2, lon2)` of index.js: the
haversine great-circle formula with Earth radius 6 371 000 m, in degrees. -/
noncomputable def haversineDistance (lat1 lon1 lat2 lon2 : Real) : Real :=
  let R : Real := 6371000
  let lat1R := lat1 * Real.pi / 180
  let lon1R := lon1 * Real.pi / 180
  let lat2R := lat2 * Real.pi / 180
  let lon2R := lon2 * Real.pi / 180
  let dlat := lat2R - lat1R
  let dlon := lon2R - lon1R
  let a := Real.sin (dlat / 2) ^ 2 +
    Real.cos lat1R * Real.cos lat2R * Real.sin (dlon / 2) ^ 2
  let c := 2 * jsAtan2 (Real.sqrt a) (Real.sqrt (1 - a))
  R * c

/-- `Math.round`: round half toward `+∞`. -/
noncomputable def jsRound (x : Real) : Int := ⌊x + 1 / 2⌋

/-- Classical truth value of a real comparison (JS compares doubles;
comparisons against `NaN` are handled by the `Option` matches around
this). -/
noncomputable def rDecide (p : Prop) : Bool := @decide p (Classical.propDecidable p)

/-- Attach `distance_meters = Math.round(d * 10) / 10` to a stop; a stop
with an unparseable coordinate gets `NaN` (`none`). -/
noncomputable def augment (qlat qlon : Real) (s : GeoStop) : GeoStop × Option Real :=
  match s.lat, s.lon with
  | some la, some lo =>
    (s, some ((jsRound (haversineDistance qlat qlon la lo * 10) : Real) / 10))
  | _, _ => (s, none)

/-- `s.distance_meters <= radius` (false when either side is `NaN`). -/
noncomputable def distFilter (radiusVal : Option Int) (p : GeoStop × Option Real) : Bool :=
  match p.2, radiusVal with
  | some d, some r => rDecide (d ≤ (r : Real))
  | _, _ => false

/-- The comparator `(a, b) => a.distance_meters - b.distance_meters` as
the stays-before relation. -/
noncomputable def distLe (a b : GeoStop × Option Real) : Bool :=
  match a.2, b.2 with
  | some x, some y => rDecide (x ≤ y)
  | _, _ => true

/-- The name comparator `localeCompare`, modelled as code-point order. -/
def nameLe (a b : GeoStop × Option Real) : Bool :=
  decide (a.1.stop_name ≤ b.1.stop_name)

/-- `handleFindStop`, down to the list of stops the response carries
(paired with their `distance_meters` when coordinates were given):
optional name filter, then either distance-filter + distance-sort or
name-sort, then `slice(0, limit)`. -/
noncomputable def handleFindStopStops (stops : List GeoStop) (name : Option String)
    (qlat qlon : Option Real) (radiusStr limitStr : Option String) :
    List (GeoStop × Option Real) :=
  let radiusVal := limitFromParam radiusStr "500"
  let limitVal := limitFromParam limitStr "10"
  let stops1 :=
    match name with
    | some nm =>
      if nm = "" then stops
      else stops.filter fun s => jsIncludes (jsToLower s.stop_name) (jsToLower nm)
    | none => stops
  let result :=
    match qlat, qlon with
    | some la, some lo =>
      stableSort distLe ((stops1.map (augment la lo)).filter (distFilter radiusVal))
    | _, _ => stableSort nameLe (stops1.map fun s => (s, none))
  jsSlice0 result limitVal

/-! ### findRoute -/

/-- The route sort comparator: numeric by `parseInt(route_short_name)`
when both parse, else `localeCompare` of the (defaulted) names. -/
def routeCmpLe (a b : Row) : Bool :=
  match (rowGet a "route_short_name").bind jsParseInt,
      (rowGet b "route_short_name").bind jsParseInt with
  | some x, some y => x ≤ y
  | _, _ =>
    decide ((rowGet a "route_short_name").getD "" ≤ (rowGet b "route_short_name").getD "")

/-- The `number` filter of `handleFindRoute`. -/
def matchesNumber (num : String) (r : Row) : Bool :=
  let numL := jsToLower num
  let rid := jsToLower ((rowGet r "route_id").getD "")
  let rsn := jsToLower ((rowGet r "route_short_name").getD "")
  rid == numL || rsn == numL || jsIncludes rid numL || jsIncludes rsn numL

/-- `parseInt(st.stop_sequence || 0)`: empty/absent becomes 0, garbage
becomes `NaN`. -/
def seqVal (st : Row) : Option Int :=
  match rowGet st "stop_sequence" with
  | none => some 0
  | some s => if s = "" then some 0 else jsParseInt s

/-- The stop-sequence comparator (a `NaN` difference is treated as 0). -/
def seqLe (a b : Row) : Bool :=
  match seqVal a, seqVal b with
  | some x, some y => x ≤ y
  | _, _ => true

/-- `stopsDict[k]` where the dict is built by
`stops.forEach(s => dict[s.stop_id] = s)`: the last stop with that id
wins. -/
def stopsDictGet (stopsTable : List Row) (k : Option String) : Option Row :=
  (stopsTable.filter fun s => rowGet s "stop_id" == k).getLast?

/-- The `include_stops` block of `handleFindRoute` for one route: stops
of the *first* trip of the route, sorted by `stop_sequence`, joined with
the stops table, as `(stop_sequence, stop_id, stop_name, arrival_time,
departure_time)` plus the count. -/
def routeStopsFor (tripsTable stopTimesTable stopsTable : List Row) (r : Row) :
    List (Option Int × String × String × String × String) × Nat :=
  let routeTrips := tripsTable.filter fun t => rowGet t "route_id" == rowGet r "route_id"
  match routeTrips.head? with
  | none => ([], 0)
  | some t0 =>
    let tripId := rowGet t0 "trip_id"
    let tripStops := stopTimesTable.filter fun st => rowGet st "trip_id" == tripId
    let sorted := stableSort seqLe tripStops
    let infos := sorted.filterMap fun st =>
      match stopsDictGet stopsTable (rowGet st "stop_id") with
      | none => none
      | some sd => some (seqVal st, (rowGet st "stop_id").getD "",
          (rowGet sd "stop_name").getD "", (rowGet st "arrival_time").getD "",
          (rowGet st "departure_time").getD "")
    (infos, infos.length)

/-- `handleFindRoute`, down to the list of routes the response carries
(each with its optional resolved stops): `number`/`name` filters, sort,
`slice(0, limit)`, then the per-route info loop. -/
def handleFindRouteRoutes (routesTable tripsTable stopTimesTable stopsTable : List Row)
    (number nameq : Option String) (includeStops : Bool) (limitStr : Option String) :
    List (Row × Option (List (Option Int × String × String × String × String) × Nat)) :=
  let r1 :=
    match number with
    | some num => if num = "" then routesTable else routesTable.filter (matchesNumber num)
    | none => routesTable
  let r2 :=
    match nameq with
    | some nm =>
      if nm = "" then r1
      else r1.filter fun r =>
        jsIncludes (jsToLower ((rowGet r "route_long_name").getD "")) (jsToLower nm)
    | none => r1
  let sliced := jsSlice0 (stableSort routeCmpLe r2) (limitFromParam limitStr "10")
  sliced.map fun r =>
    (r, if includeStops then some (routeStopsFor tripsTable stopTimesTable stopsTable r)
      else none)

/-- C10: when the `limit` query parameter is present, non-empty and not
parseable as an integer (`parseInt` gives `NaN`), the departures,
find-stop and find-route handlers all return an *empty* result list:
`slice(0, NaN)` truncates to zero elements instead of falling back to
the documented defaults (5 for departures, 10 otherwise). -/
theorem nan_limit_gives_empty (lim : String) (hne : lim ≠ "")
    (hnan : jsParseInt lim = none) :
    (∀ (rid sid : String), rid ≠ "" → sid ≠ "" →
      ∀ (tT stT : String) (now : Int),
        handleDeparturesList (some rid) (some sid) (some lim) tT stT now =
          Except.ok []) ∧
    (∀ (stops : List GeoStop) (name : Option String) (qlat qlon : Option Real)
        (radiusStr : Option String),
      handleFindStopStops stops name qlat qlon radiusStr (some lim) = []) ∧
    (∀ (routesT tripsT stopTimesT stopsT : List Row) (number nameq : Option String)
        (inc : Bool),
      handleFindRouteRoutes routesT tripsT stopTimesT stopsT number nameq inc
        (some lim) = []) := by
  have hlim : ∀ d, limitFromParam (some lim) d = none := by
    intro d
    simp [limitFromParam, hne, hnan]
  refine ⟨?_, ?_, ?_⟩
  · intro rid sid hrid hsid tT stT now
    simp only [handleDeparturesList, hlim]
    rw [if_neg (by simp [hrid, hsid])]
    split
    · rfl
    · rfl
  · intro stops name qlat qlon radiusStr
    simp only [handleFindStopStops, hlim]
    rfl
  · intro routesT tripsT stopTimesT stopsT number nameq inc
    simp only [handleFindRouteRoutes, hlim]
    rfl

/-- Witness for C10 with the unparseable limit `"abc"` against the
end-to-end scenario feed. -/
theorem nan_limit_gives_empty_witness :
    ("abc" : String) ≠ "" ∧ jsParseInt "abc" = none ∧
    ((∀ (rid sid : String), rid ≠ "" → sid ≠ "" →
      ∀ (tT stT : String) (now : Int),
        handleDeparturesList (some rid) (some sid) (some "abc") tT stT now =
          Except.ok []) ∧
    (∀ (stops : List GeoStop) (name : Option String) (qlat qlon : Option Real)
        (radiusStr : Option String),
      handleFindStopStops stops name qlat qlon radiusStr (some "abc") = []) ∧
    (∀ (routesT tripsT stopTimesT stopsT : List Row) (number nameq : Option String)
        (inc : Bool),
      handleFindRouteRoutes routesT tripsT stopTimesT stopsT number nameq inc
        (some "abc") = [])) :=
  ⟨by decide, by decide, nan_limit_gives_empty "abc" (by decide) (by decide)⟩

/-! ## Ordering and permutation facts for the distance sort (C9) -/

/-- Ordering between two distance-annotated stops: whenever both carry a
distance, the first is no farther. -/
def distKeyRel (a b : GeoStop × Option Real) : Prop :=
  ∀ x y, a.2 = some x → b.2 = some y → x ≤ y

theorem insSorted_perm {α : Type} (le : α → α → Bool) (x : α) (l : List α) :
    (insSorted le x l).Perm (x :: l) := by
  induction l with
  | nil => simp [insSorted]
  | cons y ys ih =>
    simp only [insSorted]
    split
    · exact (ih.cons y).trans (List.Perm.swap x y ys)
    · exact List.Perm.refl _

theorem stableSort_perm {α : Type} (le : α → α → Bool) (l : List α) :
    (stableSort le l).Perm l := by
  suffices h : ∀ acc, (l.foldl (fun acc x => insSorted le x acc) acc).Perm (l ++ acc) by
    simpa using h []
  induction l with
  | nil => intro acc; simp
  | cons x xs ih =>
    intro acc
    exact ((ih (insSorted le x acc)).trans
      ((List.Perm.append_left xs (insSorted_perm le x acc)).trans List.perm_middle))

theorem insSortedDist_pairwise (x : GeoStop × Option Real)
    (l : List (GeoStop × Option Real)) (hx : (x.2).isSome)
    (hl : ∀ e ∈ l, (e.2).isSome) (hs : l.Pairwise distKeyRel) :
    (insSorted distLe x l).Pairwise distKeyRel := by
  induction l with
  | nil => simp [insSorted, distKeyRel]
  | cons y ys ih =>
    obtain ⟨ky, hky⟩ := Option.isSome_iff_exists.mp (hl y (List.mem_cons_self _ _))
    obtain ⟨kx, hkx⟩ := Option.isSome_iff_exists.mp hx
    rcases List.pairwise_cons.mp hs with ⟨hyall, hys⟩
    simp only [insSorted]
    split
    · next hle =>
      refine List.pairwise_cons.mpr ⟨?_, ih (fun e he =>
        hl e (List.mem_cons_of_mem _ he)) hys⟩
      refine insSorted_forall distLe x ys ?_ hyall
      intro a b ha hb
      rw [hky] at ha
      rw [hkx] at hb
      cases ha; cases hb
      have : rDecide (ky ≤ kx) = true := by
        simpa [distLe, hky, hkx] using hle
      exact of_decide_eq_true this
    · next hgt =>
      have hxy : kx ≤ ky := by
        have hnot : ¬ (rDecide (ky ≤ kx) = true) := by
          simpa [distLe, hky, hkx] using hgt
        have : ¬ (ky ≤ kx) := fun hc => hnot (decide_eq_true hc)
        exact le_of_not_le this
      refine List.pairwise_cons.mpr ⟨?_, hs⟩
      intro e he
      rcases List.mem_cons.mp he with rfl | he'
      · intro a b ha hb
        rw [hkx] at ha; rw [hky] at hb
        cases ha; cases hb
        exact hxy
      · intro a b ha hb
        obtain ⟨ke, hke⟩ := Option.isSome_iff_exists.mp
          (hl e (List.mem_cons_of_mem _ he'))
        have h1 : ky ≤ ke := hyall e he' ky ke hky hke
        rw [hkx] at ha; rw [hke] at hb
        cases ha; cases hb
        exact le_trans hxy h1

theorem stableSortDist_pairwise_aux :
    ∀ (l acc : List (GeoStop × Option Real)), (∀ e ∈ l, (e.2).isSome) →
      (∀ e ∈ acc, (e.2).isSome) → acc.Pairwise distKeyRel →
      (l.foldl (fun acc x => insSorted distLe x acc) acc).Pairwise distKeyRel := by
  intro l
  induction l with
  | nil => intro acc _ _ hp; exact hp
  | cons x xs ih =>
    intro acc hl hacc hp
    have hx : (x.2).isSome := hl x (List.mem_cons_self _ _)
    have hxs : ∀ e ∈ xs, (e.2).isSome := fun e he =>
      hl e (List.mem_cons_of_mem _ he)
    exact ih (insSorted distLe x acc) hxs
      (insSorted_forall distLe x acc hx hacc)
      (insSortedDist_pairwise x acc hx hacc hp)

theorem stableSortDist_pairwise (l : List (GeoStop × Option Real))
    (hl : ∀ e ∈ l, (e.2).isSome) :
    (stableSort distLe l).Pairwise distKeyRel :=
  stableSortDist_pairwise_aux l [] hl (by simp) (by simp)

theorem handleFindStopStops_geo_eq (stops : List GeoStop) (la lo : Real)
    (radiusStr limitStr : Option String) (rv k : Int)
    (hr : limitFromParam radiusStr "500" = some rv)
    (hk : limitFromParam limitStr "10" = some k) (hk0 : 0 ≤ k) :
    handleFindStopStops stops none (some la) (some lo) radiusStr limitStr =
      (stableSort distLe
        ((stops.map (augment la lo)).filter (distFilter (some rv)))).take k.toNat := by
  simp only [handleFindStopStops, hr, hk, jsSlice0]
  rw [if_neg (not_lt.mpr hk0)]

theorem distFilter_some {rv : Int} {p : GeoStop × Option Real}
    (h : distFilter (some rv) p = true) : ∃ d, p.2 = some d ∧ d ≤ (rv : Real) := by
  unfold distFilter at h
  rcases hp : p.2 with _ | d
  · rw [hp] at h
    cases h
  · rw [hp] at h
    exact ⟨d, rfl, of_decide_eq_true h⟩

theorem haversine_self_zero : haversineDistance 0 0 0 0 = 0 := by
  have h0 : (0 : Real) * Real.pi / 180 = 0 := by ring
  simp only [haversineDistance, h0, sub_zero, zero_div, Real.sin_zero, Real.cos_zero,
    zero_pow, Real.sqrt_zero, sub_self]
  norm_num [jsAtan2, Real.sqrt_one, Real.arctan_zero]

set_option maxHeartbeats 1000000 in
theorem haversine_0011_gt : (6 : Real) / 5 < haversineDistance 0 0 1 1 := by
  have hpi_lb : (3.14 : Real) < Real.pi := Real.pi_gt_d2
  have hpi_ub : Real.pi < 3.15 := Real.pi_lt_d2
  have ht_pos : (0 : Real) < Real.pi / 360 := by positivity
  have ht_lb : (0.00872 : Real) < Real.pi / 360 := by linarith
  have ht_ub : Real.pi / 360 < 0.00875 := by linarith
  have ht1 : Real.pi / 360 ≤ 1 := by linarith
  have hs_lb : (0.0087 : Real) < Real.sin (Real.pi / 360) := by
    have hcube := Real.sin_gt_sub_cube ht_pos ht1
    have hc3 : (Real.pi / 360) ^ 3 < 0.00875 ^ 3 := by
      exact pow_lt_pow_left₀ ht_ub ht_pos.le (by norm_num)
    have he : (0.00875 : Real) ^ 3 < 0.0000007 := by norm_num
    linarith
  have hs_ub : Real.sin (Real.pi / 360) < 0.00875 :=
    lt_trans (Real.sin_lt ht_pos) ht_ub
  have hs_pos : (0 : Real) < Real.sin (Real.pi / 360) := by linarith
  have e1 : (0 : Real) * Real.pi / 180 = 0 := by ring
  have e2 : (1 : Real) * Real.pi / 180 = Real.pi / 180 := by ring
  have e3 : Real.pi / 180 / 2 = Real.pi / 360 := by ring
  simp only [haversineDistance, e1, e2, sub_zero, Real.cos_zero, one_mul, e3]
  set s : Real := Real.sin (Real.pi / 360) with hs
  set A : Real := s ^ 2 + Real.cos (Real.pi / 180) * s ^ 2 with hA
  clear_value A
  clear_value s
  have hcos_ub : Real.cos (Real.pi / 180) ≤ 1 := Real.cos_le_one _
  have hcos_lb : 0 ≤ Real.cos (Real.pi / 180) := by
    apply Real.cos_nonneg_of_mem_Icc
    constructor
    · linarith
    · linarith
  have hA_lb : s ^ 2 ≤ A := by
    rw [hA]
    linarith [mul_nonneg hcos_lb (sq_nonneg s)]
  have hs2 : s ^ 2 < 0.00875 ^ 2 := by nlinarith
  have hA_ub : A ≤ 1 / 2 := by
    rw [hA]
    have hc : Real.cos (Real.pi / 180) * s ^ 2 ≤ s ^ 2 :=
      mul_le_of_le_one_left (sq_nonneg s) hcos_ub
    nlinarith
  have hA_pos : 0 < A := by
    rw [hA]
    have : 0 < s ^ 2 := pow_pos hs_pos 2
    linarith [mul_nonneg hcos_lb (sq_nonneg s)]
  have hden_pos : 0 < Real.sqrt (1 - A) := Real.sqrt_pos.mpr (by linarith)
  have hden_le1 : Real.sqrt (1 - A) ≤ 1 := by
    calc Real.sqrt (1 - A) ≤ Real.sqrt 1 := Real.sqrt_le_sqrt (by linarith)
      _ = 1 := Real.sqrt_one
  have hnum_lb : s ≤ Real.sqrt A := Real.le_sqrt_of_sq_le hA_lb
  have hats : jsAtan2 (Real.sqrt A) (Real.sqrt (1 - A)) =
      Real.arctan (Real.sqrt A / Real.sqrt (1 - A)) := by
    unfold jsAtan2
    rw [if_pos hden_pos]
  rw [hats]
  have hratio : s ≤ Real.sqrt A / Real.sqrt (1 - A) := by
    rw [le_div_iff₀ hden_pos]
    calc s * Real.sqrt (1 - A) ≤ s * 1 :=
        mul_le_mul_of_nonneg_left hden_le1 hs_pos.le
      _ = s := mul_one s
      _ ≤ Real.sqrt A := hnum_lb
  have hy_pos : (0 : Real) < 0.0000001 := by norm_num
  have hy_lt : (0.0000001 : Real) < Real.pi / 2 := by linarith
  have htan : Real.tan 0.0000001 < s := by
    rw [Real.tan_eq_sin_div_cos]
    have hsiny : Real.sin 0.0000001 < 0.0000001 := Real.sin_lt hy_pos
    have hcosy : (1 : Real) / 2 < Real.cos 0.0000001 := by
      have := Real.one_sub_sq_div_two_lt_cos (x := (0.0000001 : Real)) (by norm_num)
      nlinarith
    rw [div_lt_iff₀ (by linarith : (0 : Real) < Real.cos 0.0000001)]
    nlinarith
  have harctan : (0.0000001 : Real) <
      Real.arctan (Real.sqrt A / Real.sqrt (1 - A)) := by
    have h1 : Real.arctan (Real.tan 0.0000001) <
        Real.arctan (Real.sqrt A / Real.sqrt (1 - A)) :=
      Real.arctan_strictMono (lt_of_lt_of_le htan hratio)
    rwa [Real.arctan_tan (by linarith) hy_lt] at h1
  linarith [harctan]

theorem augment_origin :
    augment 0 0 ⟨"A", "Stop A", some 0, some 0⟩ =
      (⟨"A", "Stop A", some 0, some 0⟩, some 0) := by
  simp only [augment]
  have h1 : jsRound (haversineDistance 0 0 0 0 * 10) = 0 := by
    rw [haversine_self_zero]
    unfold jsRound
    rw [Int.floor_eq_zero_iff]
    constructor <;> norm_num
  rw [h1]
  norm_num

theorem augment_oneone :
    augment 0 0 ⟨"B", "Stop B", some 1, some 1⟩ =
      (⟨"B", "Stop B", some 1, some 1⟩,
        some ((jsRound (haversineDistance 0 0 1 1 * 10) : Real) / 10)) := by
  simp only [augment]

theorem distFilterA :
    distFilter (some 1) (⟨"A", "Stop A", some 0, some 0⟩, some 0) = true := by
  simp only [distFilter]
  exact decide_eq_true (by norm_num)

theorem distFilterB :
    distFilter (some 1) (⟨"B", "Stop B", some 1, some 1⟩,
      some ((jsRound (haversineDistance 0 0 1 1 * 10) : Real) / 10)) = false := by
  simp only [distFilter]
  apply decide_eq_false
  rw [not_le]
  have hfl := Int.sub_one_lt_floor (haversineDistance 0 0 1 1 * 10 + 1 / 2)
  have hgt := haversine_0011_gt
  unfold jsRound
  push_cast
  push_cast at hfl
  nlinarith

theorem haversine_cx_eq :
    haversineDistance 0 0 0 (4497 / 1000000) =
      12742000 * (4497 * Real.pi / 360000000) := by
  have e1 : (0 : Real) * Real.pi / 180 = 0 := by ring
  have e2 : (4497 / 1000000 : Real) * Real.pi / 180 =
      4497 * Real.pi / 180000000 := by ring
  have e3 : 4497 * Real.pi / 180000000 / 2 = 4497 * Real.pi / 360000000 := by ring
  have hpi_lb : (3.14 : Real) < Real.pi := Real.pi_gt_d2
  have hpi_ub : Real.pi < 3.15 := Real.pi_lt_d2
  have ht_pos : (0 : Real) < 4497 * Real.pi / 360000000 := by positivity
  have ht_small : 4497 * Real.pi / 360000000 < 0.0001 := by linarith
  have hsin_pos : 0 < Real.sin (4497 * Real.pi / 360000000) :=
    Real.sin_pos_of_pos_of_lt_pi ht_pos (by linarith)
  have hcos_pos : 0 < Real.cos (4497 * Real.pi / 360000000) :=
    Real.cos_pos_of_mem_Ioo ⟨by linarith, by linarith⟩
  simp only [haversineDistance, e1, e2, e3, sub_zero, zero_div, Real.sin_zero,
    zero_pow, Real.cos_zero, one_mul, zero_add, ne_eq, OfNat.ofNat_ne_zero,
    not_false_eq_true]
  have hsqrt1 : Real.sqrt (Real.sin (4497 * Real.pi / 360000000) ^ 2) =
      Real.sin (4497 * Real.pi / 360000000) := Real.sqrt_sq hsin_pos.le
  have hsqrt2 : Real.sqrt (1 - Real.sin (4497 * Real.pi / 360000000) ^ 2) =
      Real.cos (4497 * Real.pi / 360000000) := by
    rw [← Real.cos_sq']
    exact Real.sqrt_sq hcos_pos.le
  rw [hsqrt1, hsqrt2]
  have hat : jsAtan2 (Real.sin (4497 * Real.pi / 360000000))
      (Real.cos (4497 * Real.pi / 360000000)) = 4497 * Real.pi / 360000000 := by
    unfold jsAtan2
    rw [if_pos hcos_pos, ← Real.tan_eq_sin_div_cos,
      Real.arctan_tan (by linarith) (by linarith)]
  rw [hat]
  ring

theorem jsRound_cx :
    jsRound (haversineDistance 0 0 0 (4497 / 1000000) * 10) = 5000 := by
  rw [haversine_cx_eq]
  unfold jsRound
  have hpi_lb : (3.141592 : Real) < Real.pi := Real.pi_gt_d6
  have hpi_ub : Real.pi < 3.141593 := Real.pi_lt_d6
  rw [Int.floor_eq_iff]
  constructor
  · push_cast
    linarith
  · push_cast
    linarith

theorem augment_cx :
    augment 0 0 ⟨"X", "Far", some 0, some (4497 / 1000000)⟩ =
      (⟨"X", "Far", some 0, some (4497 / 1000000)⟩, some 500) := by
  simp only [augment]
  rw [jsRound_cx]
  norm_num

theorem distFilter_cx :
    distFilter (some 500)
      (⟨"X", "Far", some 0, some (4497 / 1000000)⟩, some 500) = true := by
  simp only [distFilter]
  exact decide_eq_true (by push_cast; norm_num)

/-- C9 (amended): with finite query coordinates, `handleFindStop` returns
exactly the stops whose *rounded* distance (`Math.round(d·10)/10`, the
`distance_meters` field) is within the radius, sorted ascending by that
rounded distance and truncated to `limit`; in particular the spec's
`(0,0)` / `(1,1)` instance holds.  (Filtering and sorting use the rounded
distance, not the exact great-circle distance — see the counterexample.) -/
theorem findStop_rounded_radius_sorted :
    (∀ (stops : List GeoStop) (la lo : Real) (radiusStr limitStr : Option String)
        (rv k : Int),
      limitFromParam radiusStr "500" = some rv →
      limitFromParam limitStr "10" = some k → 0 ≤ k →
      ((∀ p ∈ handleFindStopStops stops none (some la) (some lo) radiusStr limitStr,
          ∃ d, p.2 = some d ∧ d ≤ (rv : Real)) ∧
        (handleFindStopStops stops none (some la) (some lo) radiusStr
          limitStr).Pairwise distKeyRel ∧
        (handleFindStopStops stops none (some la) (some lo) radiusStr
          limitStr).length ≤ k.toNat ∧
        (((stops.map (augment la lo)).filter (distFilter (some rv))).length ≤ k.toNat →
          (handleFindStopStops stops none (some la) (some lo) radiusStr
            limitStr).Perm
            ((stops.map (augment la lo)).filter (distFilter (some rv)))))) ∧
    handleFindStopStops
      [⟨"A", "Stop A", some 0, some 0⟩, ⟨"B", "Stop B", some 1, some 1⟩] none
      (some 0) (some 0) (some "1") (some "10") =
      [(⟨"A", "Stop A", some 0, some 0⟩, some 0)] := by
  constructor
  · intro stops la lo radiusStr limitStr rv k hr hk hk0
    rw [handleFindStopStops_geo_eq stops la lo radiusStr limitStr rv k hr hk hk0]
    have hkept : ∀ p ∈ (stops.map (augment la lo)).filter (distFilter (some rv)),
        ∃ d, p.2 = some d ∧ d ≤ (rv : Real) := fun p hp =>
      distFilter_some (List.mem_filter.mp hp).2
    have hsome : ∀ p ∈ (stops.map (augment la lo)).filter (distFilter (some rv)),
        (p.2).isSome := by
      intro p hp
      obtain ⟨d, hd, _⟩ := hkept p hp
      simp [hd]
    have hperm := stableSort_perm distLe
      ((stops.map (augment la lo)).filter (distFilter (some rv)))
    refine ⟨?_, ?_, ?_, ?_⟩
    · intro p hp
      exact hkept p (hperm.mem_iff.mp (List.take_subset _ _ hp))
    · exact List.Pairwise.sublist (List.take_sublist _ _)
        (stableSortDist_pairwise _ hsome)
    · rw [List.length_take]
      exact min_le_left _ _
    · intro hlen
      rw [List.take_of_length_le (by rw [hperm.length_eq]; exact hlen)]
      exact hperm
  · rw [handleFindStopStops_geo_eq _ 0 0 (some "1") (some "10") 1 10 rfl rfl
      (by norm_num)]
    have hmap : ([⟨"A", "Stop A", some 0, some 0⟩,
        (⟨"B", "Stop B", some 1, some 1⟩ : GeoStop)].map (augment 0 0)) =
        [(⟨"A", "Stop A", some 0, some 0⟩, some 0),
          (⟨"B", "Stop B", some 1, some 1⟩,
            some ((jsRound (haversineDistance 0 0 1 1 * 10) : Real) / 10))] := by
      rw [List.map_cons, List.map_cons, List.map_nil, augment_origin, augment_oneone]
    rw [hmap]
    rw [List.filter_cons_of_pos distFilterA,
      List.filter_cons_of_neg (by simp [distFilterB]), List.filter_nil]
    rfl

/-- C9 counterexample: filtering uses the rounded `distance_meters`
field, not the true great-circle distance.  The stop at latitude 0,
longitude 0.004497 lies just over 500 m from the origin (its haversine
distance exceeds 500), yet a findStop query at the origin with
`radius=500` returns it, because its distance rounds to exactly 500.0. -/
theorem findStop_rounded_vs_true_counterexample :
    handleFindStopStops [⟨"X", "Far", some 0, some (4497 / 1000000)⟩] none
        (some 0) (some 0) (some "500") (some "10") =
      [(⟨"X", "Far", some 0, some (4497 / 1000000)⟩, some 500)] ∧
    (500 : Real) < haversineDistance 0 0 0 (4497 / 1000000) := by
  constructor
  · rw [handleFindStopStops_geo_eq _ 0 0 (some "500") (some "10") 500 10 rfl rfl
      (by norm_num)]
    rw [List.map_cons, List.map_nil, augment_cx]
    rw [List.filter_cons_of_pos distFilter_cx, List.filter_nil]
    rfl
  · rw [haversine_cx_eq]
    have hpi_lb : (3.141592 : Real) < Real.pi := Real.pi_gt_d6
    linarith

end BusSched
